import Mathlib

/-!
Verification of the orchestration core of the `clarity` backend.

The definitions below are a shallow embedding of the Python sources:
  * `backend/services/enrich_service.py` (`_coerce_confidence`,
    `_get_predefined_options_for_field`, `_merge_inferred_values`)
  * `backend/main.py` (`_merge_inferred_fields`)
  * `backend/helpers/field_updater.py` (`update_state_field`,
    `update_state_from_router_updates`)
  * `backend/helpers/step_transitions.py` (`get_next_step`,
    `can_proceed_from_step`)
  * `backend/constants.py` (`StepName`, `get_gate_name_for_step`)
  * `backend/agents/registry.py` (the skill catalog and its lookup helpers)
  * `backend/agents/skill_executor.py` (`execute_skill`,
    `execute_skill_chain`, `execute_intent`)

Python dictionaries are modelled as association lists keyed by strings,
Python floats as rationals (the merge logic only compares and clamps, so
the embedding is exact on every value the code manipulates), and
generator-based streaming as a returned list of output fragments.
External collaborator calls (the LLM mapping call, the visual generator,
and the per-skill agent functions) are parameters of the embedding; an
exception raised by a collaborator is modelled by an `Option`/error
component of its result.
-/

/-- A scalar Python runtime value, as far as the merge/update logic
inspects one: numbers, strings that parse as numbers (`numStr` carries
both the literal text and the parsed value), other strings, booleans and
`None`. -/
inductive PyAtom where
  | num (q : ℚ)
  | numStr (s : String) (q : ℚ)
  | str (s : String)
  | bool (b : Bool)
  | noneV
deriving DecidableEq

/-- A Python runtime value: a scalar, or a list of scalars.  The embedded
code never inspects deeper nesting (lists are only copied, measured for
truthiness, or mapped through `str`), so element values are scalars. -/
inductive PyVal where
  | atom (a : PyAtom)
  | list (l : List PyAtom)
deriving DecidableEq

/-- Shorthand for a string value. -/
def PyVal.str (s : String) : PyVal := .atom (.str s)

/-- Shorthand for a numeric value. -/
def PyVal.num (q : ℚ) : PyVal := .atom (.num q)

/-- Shorthand for Python `None`. -/
def PyVal.noneV : PyVal := .atom .noneV

/-- Python truthiness (`bool(v)`) for scalar values. -/
def truthyAtom : PyAtom → Bool
  | .num q => q ≠ 0
  | .numStr s _ => s ≠ ""
  | .str s => s ≠ ""
  | .bool b => b
  | .noneV => false

/-- Python truthiness (`bool(v)`). -/
def truthy : PyVal → Bool
  | .atom a => truthyAtom a
  | .list l => ¬ l.isEmpty

/-- The underlying text of a value that is a Python `str`
(`isinstance(v, str)` successful cases). -/
def strOf : PyVal → Option String
  | .atom (.numStr s _) => some s
  | .atom (.str s) => some s
  | _ => Option.none

/-- Python `str(a)` on scalars.  Exact on strings (the only case the
verified properties evaluate); numbers and booleans get a canonical
rendering. -/
def pyStrAtom : PyAtom → String
  | .num q => toString q
  | .numStr s _ => s
  | .str s => s
  | .bool b => if b then "True" else "False"
  | .noneV => "None"

/-- Python `str(v)`. -/
def pyStr : PyVal → String
  | .atom a => pyStrAtom a
  | .list _ => "[...]"

/-- Python `str.lower()` (as used on field names and option values):
byte-for-byte `String.toLower`, written over the character list so that
concrete instances evaluate. -/
def pyLower (s : String) : String := ⟨s.data.map Char.toLower⟩

/-- Python `float(v)` on the values above: numbers, numeric strings and
booleans convert; everything else raises (`Option.none`). -/
def toFloatQ : PyVal → Option ℚ
  | .atom (.num q) => some q
  | .atom (.numStr _ q) => some q
  | .atom (.bool b) => some (if b then 1 else 0)
  | _ => Option.none

/-- `_coerce_confidence` from `enrich_service.py`: clamp a convertible
value into `[0, 1]` (`max(0.0, min(1.0, float(value)))`, written with
comparisons so concrete instances evaluate), and return `0.0` on
`TypeError`/`ValueError`. -/
def coerceConfidence (v : PyVal) : ℚ :=
  match toFloatQ v with
  | some q => if q < 0 then 0 else if 1 < q then 1 else q
  | Option.none => 0

theorem coerceConfidence_eq_clamp (v : PyVal) :
    coerceConfidence v =
      (match toFloatQ v with
       | some q => max 0 (min 1 q)
       | Option.none => 0) := by
  unfold coerceConfidence
  cases toFloatQ v with
  | none => rfl
  | some q =>
      dsimp only
      split_ifs with h0 h1
      · rw [min_eq_right (by linarith : q ≤ (1:ℚ)), max_eq_left (by linarith : q ≤ (0:ℚ))]
      · rw [min_eq_left (by linarith : (1:ℚ) ≤ q),
          max_eq_right (by norm_num : (0:ℚ) ≤ 1)]
      · rw [min_eq_right (by linarith : q ≤ (1:ℚ)),
          max_eq_right (by linarith : (0:ℚ) ≤ q)]

/-- Lookup in a string-keyed association list (a Python dict). -/
def findVal {α : Type} (k : String) : List (String × α) → Option α
  | [] => Option.none
  | (k', v) :: t => if k' = k then some v else findVal k t

/-- `d[k] = v` on a string-keyed association list: replace in place,
append if absent (Python dict assignment preserves insertion order). -/
def updAssoc {α : Type} (k : String) (v : α) : List (String × α) → List (String × α)
  | [] => [(k, v)]
  | (k', v') :: t => if k' = k then (k, v) :: t else (k', v') :: updAssoc k v t

theorem findVal_updAssoc_self {α : Type} (k : String) (v : α) (l : List (String × α)) :
    findVal k (updAssoc k v l) = some v := by
  induction l with
  | nil => simp [updAssoc, findVal]
  | cons h t ih =>
      obtain ⟨k', v'⟩ := h
      by_cases hk : k' = k
      · simp [updAssoc, hk, findVal]
      · simp [updAssoc, hk, findVal, ih]

theorem findVal_updAssoc_ne {α : Type} {k k' : String} (h : k' ≠ k) (v : α)
    (l : List (String × α)) : findVal k' (updAssoc k v l) = findVal k' l := by
  induction l with
  | nil => simp [updAssoc, findVal, Ne.symm h]
  | cons hd t ih =>
      obtain ⟨k'', v''⟩ := hd
      by_cases hk : k'' = k
      · subst hk
        simp [updAssoc, findVal, Ne.symm h]
      · simp [updAssoc, hk, findVal, ih]

/-- A stored inferred-field record (`state_schema.InferredField` /
the dict the enrichment merge writes into `project_meta["inferred"]`). -/
structure InferredField where
  value : PyVal
  confidence : ℚ
  source : String
  rationale : String
deriving DecidableEq

/-- An entry of `project_meta["inferred"]`: either a dict-shaped record,
or a legacy non-dict value. -/
inductive Stored where
  | dict (f : InferredField)
  | other (v : PyVal)
deriving DecidableEq

/-- One field's payload inside the `inferred` dict handed to
`_merge_inferred_values`: either a structured record (with optional
`confidence`, `source`, `rationale` keys) or a bare legacy value. -/
inductive Payload where
  | recP (value : PyVal) (confidence : Option PyVal) (source : Option String)
      (rationale : Option String)
  | raw (v : PyVal)
deriving DecidableEq

/-- `new_value` extracted from a payload (`new_data.get("value")`). -/
def payloadValue : Payload → PyVal
  | .recP v _ _ _ => v
  | .raw v => v

/-- `new_conf`: coerced confidence for a structured payload
(`.get("confidence", 0)` then `_coerce_confidence`), `0.5` for a bare one. -/
def payloadConf : Payload → ℚ
  | .recP _ c _ _ => coerceConfidence (c.getD (.num 0))
  | .raw _ => 1/2

/-- `new_source` (`.get("source", "llm")`; `"llm"` for a bare payload). -/
def payloadSource : Payload → String
  | .recP _ _ s _ => s.getD "llm"
  | .raw _ => "llm"

/-- `new_rationale` (`.get("rationale", "")`; `""` for a bare payload). -/
def payloadRationale : Payload → String
  | .recP _ _ _ r => r.getD ""
  | .raw _ => ""

theorem coerceConfidence_nonneg (v : PyVal) : 0 ≤ coerceConfidence v := by
  unfold coerceConfidence
  cases h : toFloatQ v with
  | none => norm_num
  | some q =>
      dsimp only
      split_ifs with h0 h1
      · norm_num
      · norm_num
      · linarith

theorem coerceConfidence_le_one (v : PyVal) : coerceConfidence v ≤ 1 := by
  unfold coerceConfidence
  cases h : toFloatQ v with
  | none => norm_num
  | some q =>
      dsimp only
      split_ifs with h0 h1
      · norm_num
      · norm_num
      · linarith

theorem payloadConf_nonneg (p : Payload) : 0 ≤ payloadConf p := by
  cases p with
  | recP v c s r => exact coerceConfidence_nonneg _
  | raw v => norm_num [payloadConf]

theorem payloadConf_le_one (p : Payload) : payloadConf p ≤ 1 := by
  cases p with
  | recP v c s r => exact coerceConfidence_le_one _
  | raw v => norm_num [payloadConf]

/-- One predefined option from `_get_predefined_options_for_field`
(`value` and `label`; the `description` entries are never consulted by
the merge logic and are omitted). -/
structure OptionDef where
  value : String
  label : String
deriving DecidableEq

/-- `_get_predefined_options_for_field` from `enrich_service.py`. -/
def optionsFor (fieldName : String) : Option (List OptionDef) :=
  if fieldName = "industry" then some
    [⟨"technology", "Technology"⟩, ⟨"ecommerce", "E-commerce"⟩,
     ⟨"healthcare", "Healthcare"⟩, ⟨"finance", "Finance"⟩,
     ⟨"education", "Education"⟩, ⟨"restaurant", "Restaurant"⟩,
     ⟨"real_estate", "Real Estate"⟩,
     ⟨"professional_services", "Professional Services"⟩,
     ⟨"creative", "Creative"⟩, ⟨"nonprofit", "Nonprofit"⟩,
     ⟨"other", "Other"⟩]
  else if fieldName = "tone" then some
    [⟨"professional", "Professional"⟩, ⟨"friendly", "Friendly"⟩,
     ⟨"casual", "Casual"⟩, ⟨"authoritative", "Authoritative"⟩,
     ⟨"playful", "Playful"⟩, ⟨"inspirational", "Inspirational"⟩]
  else if fieldName = "design_style" then some
    [⟨"minimal", "Minimal"⟩, ⟨"modern", "Modern"⟩, ⟨"elegant", "Elegant"⟩,
     ⟨"playful", "Playful"⟩, ⟨"corporate", "Corporate"⟩, ⟨"bold", "Bold"⟩]
  else if fieldName = "goal" then some
    [⟨"lead_generation", "Generate Leads"⟩, ⟨"sell_products", "Sell Products"⟩,
     ⟨"build_brand", "Build Brand"⟩, ⟨"inform", "Inform Visitors"⟩,
     ⟨"portfolio", "Showcase Work"⟩, ⟨"booking", "Take Bookings"⟩]
  else if fieldName = "font_pair" then some
    [⟨"inter_playfair", "Inter + Playfair"⟩, ⟨"poppins_lora", "Poppins + Lora"⟩,
     ⟨"roboto_roboto_slab", "Roboto + Roboto Slab"⟩,
     ⟨"montserrat_merriweather", "Montserrat + Merriweather"⟩,
     ⟨"open_sans_oswald", "Open Sans + Oswald"⟩, ⟨"system", "System Fonts"⟩]
  else Option.none

/-- A `field_mappings` entry (the dict stored by the merge or returned by
`map_to_closest_option`). -/
structure MapRec where
  originalValue : String
  mappedValue : Option String
  confidence : ℚ
  rationale : String
deriving DecidableEq

/-- The external collaborators `_merge_inferred_values` calls:
`map_to_closest_option` and `generate_field_visuals`.  A result of
`Option.none` models the call raising an exception (both call sites wrap
the call in `try`/`except`). -/
structure EnrichOracles where
  mapToClosest : String → String → List OptionDef → String → Option MapRec
  genVisuals : String → String → String → String → Option PyVal

/-- The slice of `WebsiteState` read or written by
`_merge_inferred_values`: active fields, `additional_context`, and the
`project_meta` sub-dicts.  `user_overrides` keeps only its keys (the
merge consults membership only). -/
structure WState where
  projectName : String
  industry : String
  designStyle : String
  brandColors : List String
  additionalContext : List (String × PyVal)
  inferred : List (String × Stored)
  userOverrides : List String
  fieldMappings : List (String × MapRec)
  fieldVisuals : List (String × PyVal)
  tone : Option String
  logs : List String
deriving DecidableEq

/-- The merge's running counters (`accepted_count`, `upgraded_count`,
`kept_count`, `mapped_count`, `visual_generated_count`). -/
structure Counters where
  accepted : ℕ
  upgraded : ℕ
  kept : ℕ
  mapped : ℕ
  visualGenerated : ℕ
deriving DecidableEq

/-- Truthiness of a `MapRec.mappedValue` together with the `>= 0.7`
confidence test (`mapping.get("mapped_value") and
mapping.get("confidence", 0) >= 0.7`). -/
def mapRecUsable (m : MapRec) : Bool :=
  match m.mappedValue with
  | some s => s ≠ "" ∧ m.confidence ≥ 7/10
  | Option.none => false

/-- The mapping / visual-generation block of the accepted branch of
`_merge_inferred_values` (the code between storing the inferred record
and the user-override check).  It touches only `field_mappings` and
`field_visuals` and the two relevant counters. -/
def mapVisualStep (or : EnrichOracles) (ctx fieldName : String) (newValue : PyVal)
    (st : WState) (c : Counters) : WState × Counters :=
  match strOf newValue with
  | some s =>
    if s.trim ≠ "" then
      match optionsFor fieldName with
      | some opts =>
        match opts.find? (fun o =>
            pyLower o.value = (pyLower s).trim ∨ pyLower o.label = (pyLower s).trim) with
        | some o =>
            ({ st with fieldMappings :=
                 (updAssoc fieldName ⟨s, some o.value, 1, "Exact match to predefined option"⟩
                   st.fieldMappings) },
             { c with mapped := c.mapped + 1 })
        | Option.none =>
          match or.mapToClosest fieldName s opts ctx with
          | some mr =>
            if mapRecUsable mr then
              ({ st with fieldMappings := updAssoc fieldName mr st.fieldMappings },
               { c with mapped := c.mapped + 1 })
            else
              match or.genVisuals fieldName s fieldName ctx with
              | some vis =>
                  ({ st with fieldVisuals := updAssoc fieldName vis st.fieldVisuals },
                   { c with visualGenerated := c.visualGenerated + 1 })
              | Option.none => (st, c)
          | Option.none =>
            match or.genVisuals fieldName s fieldName ctx with
            | some vis =>
                ({ st with fieldVisuals := updAssoc fieldName vis st.fieldVisuals },
                 { c with visualGenerated := c.visualGenerated + 1 })
            | Option.none => (st, c)
      | Option.none =>
        match or.genVisuals fieldName s fieldName ctx with
        | some vis =>
            ({ st with fieldVisuals := updAssoc fieldName vis st.fieldVisuals },
             { c with visualGenerated := c.visualGenerated + 1 })
        | Option.none => (st, c)
    else (st, c)
  | Option.none => (st, c)

/-- The active-field update block at the end of the accepted branch
(`state.industry = ...` and friends), keyed on the field name and the
truthiness of `value_to_use`. -/
def activeUpdate (fieldName : String) (vtu : PyVal) (st : WState) : WState :=
  if fieldName = "industry" ∧ truthy vtu then { st with industry := pyStr vtu }
  else if fieldName = "design_style" ∧ truthy vtu then { st with designStyle := pyStr vtu }
  else if fieldName = "brand_colors" ∧ truthy vtu then
    match vtu with
    | .list l => { st with brandColors := l.map pyStrAtom }
    | .atom (.str s) => { st with brandColors := (s.splitOn ",").map String.trim }
    | .atom (.numStr s _) => { st with brandColors := (s.splitOn ",").map String.trim }
    | _ => st
  else if fieldName = "draft_pages" ∧ truthy vtu then
    if "draft_pages" ∈ st.userOverrides then st
    else
      match vtu with
      | .list l => { st with additionalContext :=
          (updAssoc "draft_pages" (.list l) st.additionalContext) }
      | _ => st
  else if fieldName = "tone" ∧ truthy vtu then { st with tone := some (pyStr vtu) }
  else st

/-- `old_conf` as computed by `_merge_inferred_values`: the coerced
stored confidence when the existing entry is a (truthy) dict, `-1.0`
otherwise. -/
def oldConfOf : Option Stored → ℚ
  | some (.dict r) => coerceConfidence (.num r.confidence)
  | some (.other _) => -1
  | Option.none => -1

/-- One iteration of the `for field_name, new_data in inferred.items()`
loop of `_merge_inferred_values`. -/
def mergeField (or : EnrichOracles) (ctx : String) :
    WState × Counters → String × Payload → WState × Counters :=
  fun sc fp =>
    let st := sc.1
    let c := sc.2
    let fieldName := fp.1
    let p := fp.2
    let newValue := payloadValue p
    let newConf := payloadConf p
    let oldData := findVal fieldName st.inferred
    if oldData = Option.none ∨ newConf > oldConfOf oldData then
      let c1 := match oldData with
        | Option.none => { c with accepted := c.accepted + 1 }
        | some _ => { c with upgraded := c.upgraded + 1 }
      let st1 := { st with inferred :=
        (updAssoc fieldName
          (.dict ⟨newValue, newConf, payloadSource p, payloadRationale p⟩) st.inferred) }
      let sc2 := mapVisualStep or ctx fieldName newValue st1 c1
      let st2 := sc2.1
      let c2 := sc2.2
      if fieldName ∈ st2.userOverrides then (st2, c2)
      else
        let vtu := match findVal fieldName st2.fieldMappings with
          | some mr => match mr.mappedValue with
            | some m => if m ≠ "" ∧ mr.confidence ≥ 7/10 then PyVal.str m else newValue
            | Option.none => newValue
          | Option.none => newValue
        (activeUpdate fieldName vtu st2, c2)
    else
      (st, { c with kept := c.kept + 1 })

/-- `_merge_inferred_values` from `enrich_service.py`: fold the loop over
the payload items, then append the summary log line. -/
def mergeInferredValues (or : EnrichOracles) (st : WState)
    (items : List (String × Payload)) : WState :=
  let ctx := "Business: " ++ st.projectName ++ ", Industry: " ++ st.industry
  let r := items.foldl (mergeField or ctx) (st, ⟨0, 0, 0, 0, 0⟩)
  { r.1 with logs := r.1.logs ++
      ["Enrich: Merged " ++ toString r.2.accepted ++ " new, " ++
       toString r.2.upgraded ++ " upgraded, " ++ toString r.2.kept ++
       " kept, " ++ toString r.2.mapped ++ " mapped, " ++
       toString r.2.visualGenerated ++ " visuals generated"] }

/-- One item of the `new_inferences` dict handed to `main.py`'s
`_merge_inferred_fields` (`.get("value")`, `float(.get("confidence",
0.0))`, `.get("rationale", "")`; a non-numeric confidence would raise
uncaught and is outside this embedding). -/
structure MainItem where
  value : PyVal
  confidence : ℚ
  rationale : String
deriving DecidableEq

/-- The `ProjectMeta` slice used by `main.py`'s `_merge_inferred_fields`:
typed inferred records plus the override keys (only membership of
`user_overrides` is consulted). -/
structure ProjectMetaM where
  inferred : List (String × InferredField)
  userOverrides : List String
deriving DecidableEq

/-- `_merge_inferred_fields` from `main.py`: skip user-overridden fields,
skip non-increasing confidence, otherwise store the new record. -/
def mergeInferredFieldsMain (meta : ProjectMetaM)
    (items : List (String × MainItem)) (source : String) : ProjectMetaM :=
  items.foldl
    (fun m fi =>
      let fieldName := fi.1
      let it := fi.2
      if fieldName ∈ m.userOverrides then m
      else
        match findVal fieldName m.inferred with
        | some existing =>
            if it.confidence ≤ existing.confidence then m
            else { m with inferred :=
              (updAssoc fieldName ⟨it.value, it.confidence, source, it.rationale⟩ m.inferred) }
        | Option.none =>
            { m with inferred :=
              (updAssoc fieldName ⟨it.value, it.confidence, source, it.rationale⟩ m.inferred) })
    meta

/-- `FIELD_MAP` from `field_updater.py`. -/
def fieldMapLookup (k : String) : Option String :=
  if k = "name" then some "project_name"
  else if k = "colors" then some "brand_colors"
  else if k = "style" then some "design_style"
  else Option.none

/-- The attribute names of `WebsiteState` (`state_schema.py`), used for
the `hasattr` check in `update_state_field`. -/
def websiteStateAttrs : List String :=
  ["project_name", "industry", "brand_colors", "design_style",
   "additional_context", "crm_data", "missing_info", "project_brief",
   "sitemap", "prd_document", "generated_code", "current_step", "logs",
   "chat_history", "project_meta", "agent_reasoning", "seo_data",
   "ux_strategy", "copywriting", "context_summary"]

/-- The `source` literal of `update_state_field`. -/
inductive UpdSource where
  | user
  | inferred
  | scraped
  | crm
deriving DecidableEq

/-- The slice of `WebsiteState` touched by `field_updater.py`: the
attribute dictionary (assignment is unvalidated, so any value can land
in any attribute) and `project_meta["inferred_fields"]`. -/
structure FUState where
  attrs : List (String × PyVal)
  inferredFields : List String
deriving DecidableEq

/-- The special case of `update_state_field` for `brand_colors`: a bare
string value is wrapped in a one-element list. -/
def brandColorsWrap (targetKey : String) (value : PyVal) : PyVal :=
  if targetKey = "brand_colors" then
    match value with
    | .atom (.str s) => PyVal.list [.str s]
    | .atom (.numStr s q) => PyVal.list [.numStr s q]
    | _ => value
  else value

/-- `update_state_field` from `field_updater.py`: map the field name,
drop unknown attributes, wrap a string `brand_colors` value in a list,
maintain `inferred_fields` according to the source, and assign. -/
def updateStateField (st : FUState) (fieldName : String) (value : PyVal)
    (source : UpdSource) : FUState :=
  let targetKey := (fieldMapLookup (pyLower fieldName)).getD fieldName
  if targetKey ∉ websiteStateAttrs then st
  else
    let value' := brandColorsWrap targetKey value
    let infFields := match source with
      | .user => st.inferredFields.erase targetKey
      | .inferred =>
          if targetKey ∈ st.inferredFields then st.inferredFields
          else st.inferredFields ++ [targetKey]
      | _ => st.inferredFields
    { attrs := updAssoc targetKey value' st.attrs, inferredFields := infFields }

/-- `update_state_from_router_updates` from `field_updater.py`: skip
`None` values, classify each key as inferred when it (or its mapped
name) is listed in `assumptions`, and apply `update_state_field`. -/
def updateStateFromRouterUpdates (st : FUState) (updates : List (String × PyVal))
    (assumptions : List String) : FUState :=
  updates.foldl
    (fun s kv =>
      let k := kv.1
      let v := kv.2
      if v = PyVal.noneV then s
      else
        let source : UpdSource :=
          if k ∈ assumptions ∨ ((fieldMapLookup (pyLower k)).getD k) ∈ assumptions
          then .inferred else .user
        updateStateField s k v source)
    st

/-- The workflow step names (`constants.StepName`). -/
def allSteps : List String :=
  ["intake", "research", "strategy", "ux", "planning", "seo",
   "copywriting", "prd", "building"]

/-- `get_gate_name_for_step` from `constants.py`. -/
def getGateNameForStep (stepId skillName : String) : String :=
  if stepId = "planning" then "BLUEPRINT"
  else if stepId = "intake" then "INTAKE_&_AUDIT"
  else if stepId = "copywriting" then "MARKETING"
  else if skillName = "" then "UNKNOWN"
  else (skillName.toUpper).replace " " "_"

/-- A skill record from `agents/registry.py` (the free-text
`description`, consumed only by the external classifier prompt, is
omitted). -/
structure Skill where
  id : String
  name : String
  triggerPhrases : List String
  canInvokeDirectly : Bool
  suggestedNext : Option String
  phaseIndex : ℕ
  requiresApproval : Bool
  revisionSupported : Bool
  autoExecute : Bool
  icon : String
  prerequisites : List String
deriving DecidableEq

/-- The registry interface the executor consumes: keyed skill lookup
plus the ordered `_phase_order` list. -/
structure SkillRegistry where
  get : String → Option Skill
  phaseOrder : List String

/-- `SkillRegistry.get_next_in_flow`: the successor of `current_step` in
`_phase_order`, `None` past the end or for an unknown step. -/
def getNextInFlow (r : SkillRegistry) (currentStep : String) : Option String :=
  match r.phaseOrder.indexOf? currentStep with
  | some i => r.phaseOrder.get? (i + 1)
  | Option.none => Option.none

/-- `SkillRegistry.get_natural_next_step`: the skill's own
`suggested_next` when present, else the linear-flow successor. -/
def getNaturalNextStep (r : SkillRegistry) (currentStep : String) : Option String :=
  match r.get currentStep with
  | some sk =>
      match sk.suggestedNext with
      | some n => some n
      | Option.none => getNextInFlow r currentStep
  | Option.none => getNextInFlow r currentStep

/-- `get_next_step` from `helpers/step_transitions.py`. -/
def getNextStep (currentStep action : String) (registry : Option SkillRegistry)
    (naturalNextStep : Option String) : Option String :=
  if action ≠ "PROCEED" then naturalNextStep
  else if currentStep = "intake" then some "research"
  else if currentStep = "research" then some "strategy"
  else if currentStep = "planning" then some "seo"
  else
    match naturalNextStep with
    | some n => some n
    | Option.none =>
        match registry with
        | some r => getNaturalNextStep r currentStep
        | Option.none => Option.none

/-- An `AgentReasoning` record (`state_schema.py`). -/
structure Reasoning where
  agentName : String
  thought : String
  certainty : ℚ
deriving DecidableEq

/-- The slice of `WebsiteState` the skill executor reads or writes:
`current_step`, `logs`, `missing_info`, `agent_reasoning`, and the
artifact fields consulted by `check_prerequisites`.  Skill agent
functions may mutate the whole record. -/
structure SessState where
  currentStep : String
  logs : List String
  missingInfo : List String
  agentReasoning : List Reasoning
  additionalContext : List (String × PyVal)
  projectBrief : String
  uxStrategy : Option PyVal
  sitemap : List PyVal
  seoData : Option PyVal
  copywriting : Option PyVal
  prdDocument : String
  generatedCode : String
deriving DecidableEq

/-- The behavior of the skill agent functions (the external generative
collaborators): given the skill id, the optional feedback, and the state
at call time, produce the streamed chunks, the mutated state, and
`some errorMessage` when the run raised. -/
def Behavior : Type :=
  String → Option String → SessState → List String × SessState × Option String

/-- `execute_skill` from `skill_executor.py`: unknown skill yields an
inline error fragment; otherwise set `current_step`, log the start, emit
the icon/name header, run the agent function, and either log success or
catch the exception, log it, and append an inline error fragment (the
exception is not re-raised). -/
def executeSkill (r : SkillRegistry) (beh : Behavior) (st : SessState)
    (skillId : String) (feedback : Option String) : List String × SessState :=
  match r.get skillId with
  | Option.none => (["[Error: Skill \x27" ++ skillId ++ "\x27 not found]"], st)
  | some sk =>
    let st1 := { st with
                 currentStep := skillId
                 logs := st.logs ++ ["System: Executing " ++ sk.name ++ " skill."] }
    let head := sk.icon ++ " **" ++ sk.name ++ "**\n\n"
    match beh skillId feedback st1 with
    | (chunks, st2, Option.none) =>
        (head :: chunks,
         { st2 with logs := st2.logs ++ ["System: " ++ sk.name ++ " completed successfully."] })
    | (chunks, st2, some e) =>
        (head :: (chunks ++ ["\n[Error during " ++ sk.name ++ ": " ++ e ++ "]"]),
         { st2 with logs := st2.logs ++
             ["Error: Skill execution error (" ++ sk.id ++ "): " ++ e] })

/-- The result of one chain (or intent dispatch) invocation: the output
fragments in order, the final state, the ids of the skills executed in
order, and the id at which a gate checkpoint marker was emitted (if
any). -/
structure ChainResult where
  frags : List String
  st : SessState
  trace : List String
  gateHalt : Option String
deriving DecidableEq

/-- The checkpoint marker emitted at a gate. -/
def gateMarker (sk : Skill) : String :=
  "\n\n[GATE_ACTION: " ++ getGateNameForStep sk.id sk.name ++ "]\n"

/-- `execute_skill_chain` from `skill_executor.py`: run skills starting
at `skillId`, stop with a checkpoint marker after a skill that
`requires_approval`, continue into `suggested_next` only when that
successor exists and has `auto_execute`, and otherwise stop.  The
`fuel` argument bounds the loop (the registry's chains are finite; every
verified property holds for all fuel).  The file-writing debug blocks in
the source are semantic no-ops (`try`/`except: pass`), and its
`try`/`except`-re-raise around `execute_skill` can never fire because
`execute_skill` catches all skill exceptions. -/
def executeSkillChain : ℕ → SkillRegistry → Behavior → SessState → String → ChainResult
  | 0, _, _, st, _ => ⟨[], st, [], Option.none⟩
  | (n + 1), r, beh, st, skillId =>
    match r.get skillId with
    | Option.none => ⟨[], st, [], Option.none⟩
    | some sk =>
      let p := executeSkill r beh st skillId Option.none
      if sk.requiresApproval then
        ⟨p.1 ++ [gateMarker sk], p.2, [skillId], some skillId⟩
      else
        match sk.suggestedNext with
        | some nid =>
          match r.get nid with
          | some nsk =>
            if nsk.autoExecute then
              let rest := executeSkillChain n r beh p.2 nid
              ⟨p.1 ++ rest.frags, rest.st, skillId :: rest.trace, rest.gateHalt⟩
            else ⟨p.1, p.2, [skillId], Option.none⟩
          | Option.none => ⟨p.1, p.2, [skillId], Option.none⟩
        | Option.none => ⟨p.1, p.2, [skillId], Option.none⟩

/-- `can_proceed_from_step` from `helpers/step_transitions.py`. -/
def canProceedFromStep (step : String) (st : SessState) : Bool :=
  if step = "intake" then st.missingInfo.isEmpty else true

/-- `SkillRegistry.check_prerequisites`: the prerequisite ids whose
artifact is missing, in declaration order. -/
def checkPrerequisites (r : SkillRegistry) (skillId : String) (st : SessState) :
    List String :=
  match r.get skillId with
  | Option.none => []
  | some sk =>
      sk.prerequisites.filter (fun p =>
        if p = "intake" then ¬ st.missingInfo.isEmpty
        else if p = "research" then
          ¬ truthy ((findVal "research_data" st.additionalContext).getD PyVal.noneV)
        else if p = "strategy" then st.projectBrief = ""
        else if p = "ux" then
          ¬ truthy ((st.uxStrategy).getD PyVal.noneV)
        else if p = "planning" then st.sitemap.isEmpty
        else if p = "seo" then
          ¬ truthy ((st.seoData).getD PyVal.noneV)
        else if p = "copywriting" then
          ¬ truthy ((st.copywriting).getD PyVal.noneV)
        else if p = "prd" then st.prdDocument = ""
        else false)

/-- An `IntentDecision` as consumed by `execute_intent` (produced by the
external classifier; `certainty` and `reasoning` feed the reasoning
trail only). -/
structure IntentDecision where
  action : String
  requestedSkill : String
  naturalNextStep : Option String
  revisionFeedback : Option String
  reasoning : String
  certainty : ℚ
deriving DecidableEq

/-- Append an `AgentReasoning` entry authored by the Router. -/
def addRouterReasoning (st : SessState) (thought : String) (certainty : ℚ) : SessState :=
  { st with agentReasoning := st.agentReasoning ++ [⟨"Router", thought, certainty⟩] }

/-- `execute_intent` from `skill_executor.py`: dispatch on the decision's
action.  `INVOKE` runs the requested skill once (warning, not failing,
on missing prerequisites, and emitting a gate marker when the skill is a
gate); `REVISE` runs the target skill once when revision is supported;
`PROCEED` refuses while `can_proceed_from_step` is false, otherwise
resolves the target via `get_next_step` and runs the chain; any other
action falls through with no effect. -/
def executeIntent (fuel : ℕ) (r : SkillRegistry) (beh : Behavior) (st : SessState)
    (d : IntentDecision) (userMessage : String) : ChainResult :=
  let feedback := match d.revisionFeedback with
    | some s => if s = "" then userMessage else s
    | Option.none => userMessage
  if d.action = "INVOKE" ∧ d.requestedSkill ≠ "none" then
    match r.get d.requestedSkill with
    | some sk =>
      if sk.canInvokeDirectly then
        let missing := checkPrerequisites r d.requestedSkill st
        let prereqNames := missing.filterMap (fun p => (r.get p).map Skill.name)
        let st0 :=
          if missing.isEmpty then st
          else { st with logs := st.logs ++
            ["Note: Invoking " ++ sk.name ++ " without completing: " ++
             String.intercalate ", " prereqNames] }
        let p := executeSkill r beh st0 d.requestedSkill (some feedback)
        let frags := p.1 ++ (if sk.requiresApproval then [gateMarker sk] else [])
        let st2 := addRouterReasoning p.2
          ("User intent detected: Invoke " ++ sk.name ++ ". " ++ d.reasoning) d.certainty
        ⟨frags, st2, [d.requestedSkill],
         if sk.requiresApproval then some d.requestedSkill else Option.none⟩
      else
        ⟨[], { st with logs := st.logs ++
           ["System: Cannot directly invoke skill \x27" ++ d.requestedSkill ++ "\x27"] },
         [], Option.none⟩
    | Option.none =>
        ⟨[], { st with logs := st.logs ++
           ["System: Cannot directly invoke skill \x27" ++ d.requestedSkill ++ "\x27"] },
         [], Option.none⟩
  else if d.action = "REVISE" then
    let targetId := if d.requestedSkill ≠ "none" then d.requestedSkill else st.currentStep
    match r.get targetId with
    | some sk =>
      if sk.revisionSupported then
        let p := executeSkill r beh st targetId (some feedback)
        let frags := p.1 ++ (if sk.requiresApproval then [gateMarker sk] else [])
        let st2 := addRouterReasoning p.2
          ("User requested revision of " ++ sk.name ++ ". Feedback: " ++
           feedback.take 100 ++ "...") d.certainty
        ⟨frags, st2, [targetId],
         if sk.requiresApproval then some targetId else Option.none⟩
      else
        ⟨[], { st with logs := st.logs ++
           ["System: Revision not supported for \x27" ++ targetId ++ "\x27"] },
         [], Option.none⟩
    | Option.none =>
        ⟨[], { st with logs := st.logs ++
           ["System: Revision not supported for \x27" ++ targetId ++ "\x27"] },
         [], Option.none⟩
  else if d.action = "PROCEED" then
    if ¬ canProceedFromStep st.currentStep st then
      ⟨[], { st with logs := st.logs ++
         ["System: Cannot proceed - still missing required information."] },
       [], Option.none⟩
    else
      match getNextStep st.currentStep d.action (some r) d.naturalNextStep with
      | some target =>
          let res := executeSkillChain fuel r beh st target
          let st2 := addRouterReasoning res.st
            ("User approved progression. Moving from " ++ res.st.currentStep ++
             " to " ++ target ++ " phase.") d.certainty
          ⟨res.frags, st2, res.trace, res.gateHalt⟩
      | Option.none =>
          ⟨[], { st with logs := st.logs ++
             ["System: Already at final step or no next step available."] },
           [], Option.none⟩
  else
    ⟨[], st, [], Option.none⟩

/-- The `intake` skill registered in `registry.py`. -/
def intakeSkill : Skill :=
  { id := "intake", name := "Intake & Audit"
    triggerPhrases := ["start over", "new project", "change the name", "update industry"]
    canInvokeDirectly := false, suggestedNext := some "research", phaseIndex := 0
    requiresApproval := true, revisionSupported := false, autoExecute := false
    icon := "📋", prerequisites := [] }

/-- The `research` skill registered in `registry.py`. -/
def researchSkill : Skill :=
  { id := "research", name := "Business Researcher"
    triggerPhrases := ["research", "analyze", "discover", "learn about", "scrape",
                       "website url"]
    canInvokeDirectly := true, suggestedNext := some "strategy", phaseIndex := 1
    requiresApproval := false, revisionSupported := true, autoExecute := true
    icon := "🔬", prerequisites := ["intake"] }

/-- The `strategy` skill registered in `registry.py`. -/
def strategySkill : Skill :=
  { id := "strategy", name := "Project Brief"
    triggerPhrases := ["brief", "strategy", "business goals", "target audience",
                       "value proposition", "brand voice", "update the brief"]
    canInvokeDirectly := true, suggestedNext := some "ux", phaseIndex := 2
    requiresApproval := true, revisionSupported := true, autoExecute := true
    icon := "📋", prerequisites := ["research"] }

/-- The `ux` skill registered in `registry.py`. -/
def uxSkill : Skill :=
  { id := "ux", name := "UX Designer"
    triggerPhrases := ["user persona", "user experience", "ux", "conversion",
                       "user journey", "pain points"]
    canInvokeDirectly := true, suggestedNext := some "planning", phaseIndex := 3
    requiresApproval := false, revisionSupported := true, autoExecute := true
    icon := "🎨", prerequisites := ["strategy"] }

/-- The `planning` skill registered in `registry.py`. -/
def planningSkill : Skill :=
  { id := "planning", name := "Sitemap Architect"
    triggerPhrases := ["sitemap", "pages", "structure", "add a page", "remove page",
                       "website structure", "navigation", "update the sitemap"]
    canInvokeDirectly := true, suggestedNext := some "seo", phaseIndex := 4
    requiresApproval := true, revisionSupported := true, autoExecute := true
    icon := "🏗️", prerequisites := ["ux"] }

/-- The `seo` skill registered in `registry.py`. -/
def seoSkill : Skill :=
  { id := "seo", name := "SEO Specialist"
    triggerPhrases := ["seo", "keywords", "meta title", "meta description", "search",
                       "google", "ranking"]
    canInvokeDirectly := true, suggestedNext := some "copywriting", phaseIndex := 5
    requiresApproval := false, revisionSupported := true, autoExecute := true
    icon := "🔍", prerequisites := ["planning"] }

/-- The `copywriting` skill registered in `registry.py`. -/
def copywritingSkill : Skill :=
  { id := "copywriting", name := "Copywriter"
    triggerPhrases := ["copy", "headline", "cta", "text", "content", "writing",
                       "messaging", "update the copy"]
    canInvokeDirectly := true, suggestedNext := some "prd", phaseIndex := 6
    requiresApproval := true, revisionSupported := true, autoExecute := true
    icon := "✍️", prerequisites := ["seo"] }

/-- The `prd` skill registered in `registry.py`. -/
def prdSkill : Skill :=
  { id := "prd", name := "Technical Strategist"
    triggerPhrases := ["prd", "technical", "requirements", "specifications",
                       "implementation"]
    canInvokeDirectly := true, suggestedNext := some "building", phaseIndex := 7
    requiresApproval := false, revisionSupported := true, autoExecute := true
    icon := "📄", prerequisites := ["copywriting"] }

/-- The `building` skill registered in `registry.py`. -/
def buildingSkill : Skill :=
  { id := "building", name := "Code Builder"
    triggerPhrases := ["build", "code", "generate", "create website", "html",
                      "start building"]
    canInvokeDirectly := true, suggestedNext := Option.none, phaseIndex := 8
    requiresApproval := false, revisionSupported := true, autoExecute := true
    icon := "🚀", prerequisites := ["prd"] }

/-- The registry built by `SkillRegistry._register_core_skills`. -/
def coreRegistry : SkillRegistry :=
  { get := fun id =>
      if id = "intake" then some intakeSkill
      else if id = "research" then some researchSkill
      else if id = "strategy" then some strategySkill
      else if id = "ux" then some uxSkill
      else if id = "planning" then some planningSkill
      else if id = "seo" then some seoSkill
      else if id = "copywriting" then some copywritingSkill
      else if id = "prd" then some prdSkill
      else if id = "building" then some buildingSkill
      else Option.none
    phaseOrder := allSteps }

theorem mapVisualStep_shape (or : EnrichOracles) (ctx f : String) (v : PyVal)
    (st : WState) (c : Counters) :
    ∃ fm fv, (mapVisualStep or ctx f v st c).1 =
      { st with fieldMappings := fm, fieldVisuals := fv } := by
  unfold mapVisualStep
  repeat' split
  all_goals exact ⟨_, _, rfl⟩

theorem activeUpdate_shape (f : String) (v : PyVal) (st : WState) :
    ∃ ind ds bc ac tn, activeUpdate f v st =
      { st with industry := ind, designStyle := ds, brandColors := bc,
                additionalContext := ac, tone := tn } := by
  unfold activeUpdate
  repeat' split
  all_goals exact ⟨_, _, _, _, _, rfl⟩

theorem mapVisualStep_inferred (or : EnrichOracles) (ctx f : String) (v : PyVal)
    (st : WState) (c : Counters) :
    ((mapVisualStep or ctx f v st c).1).inferred = st.inferred := by
  obtain ⟨fm, fv, h⟩ := mapVisualStep_shape or ctx f v st c
  rw [h]

theorem activeUpdate_inferred (f : String) (v : PyVal) (st : WState) :
    (activeUpdate f v st).inferred = st.inferred := by
  obtain ⟨a, b, c, d, e, h⟩ := activeUpdate_shape f v st
  rw [h]

theorem mergeField_inferred_entry (or : EnrichOracles) (ctx : String)
    (sc : WState × Counters) (fp : String × Payload) (g : String) (e : Stored)
    (h : findVal g ((mergeField or ctx sc fp).1).inferred = some e) :
    findVal g sc.1.inferred = some e ∨
    ∃ r : InferredField, e = Stored.dict r ∧ 0 ≤ r.confidence ∧ r.confidence ≤ 1 := by
  unfold mergeField at h
  dsimp only at h
  split at h
  case isTrue hacc =>
    split at h
    case isTrue hmem =>
      rw [mapVisualStep_inferred] at h
      by_cases hg : g = fp.1
      · subst hg
        rw [findVal_updAssoc_self] at h
        injection h with h'
        subst h'
        exact Or.inr ⟨_, rfl, payloadConf_nonneg fp.2, payloadConf_le_one fp.2⟩
      · rw [findVal_updAssoc_ne hg] at h
        exact Or.inl h
    case isFalse hmem =>
      rw [activeUpdate_inferred, mapVisualStep_inferred] at h
      by_cases hg : g = fp.1
      · subst hg
        rw [findVal_updAssoc_self] at h
        injection h with h'
        subst h'
        exact Or.inr ⟨_, rfl, payloadConf_nonneg fp.2, payloadConf_le_one fp.2⟩
      · rw [findVal_updAssoc_ne hg] at h
        exact Or.inl h
  case isFalse hacc => exact Or.inl h

theorem mergeFold_inferred_entry (or : EnrichOracles) (ctx : String)
    (items : List (String × Payload)) :
    ∀ (sc : WState × Counters) (g : String) (e : Stored),
      findVal g ((items.foldl (mergeField or ctx) sc).1).inferred = some e →
      findVal g sc.1.inferred = some e ∨
      ∃ r : InferredField, e = Stored.dict r ∧ 0 ≤ r.confidence ∧ r.confidence ≤ 1 := by
  induction items with
  | nil => intro sc g e h; exact Or.inl h
  | cons hd tl ih =>
      intro sc g e h
      rcases ih (mergeField or ctx sc hd) g e h with h' | h'
      · exact mergeField_inferred_entry or ctx sc hd g e h'
      · exact Or.inr h'

/-- Oracles whose external calls always raise (both call sites catch the
exception); used to instantiate theorems at concrete inputs. -/
def noOracles : EnrichOracles :=
  ⟨fun _ _ _ _ => Option.none, fun _ _ _ _ => Option.none⟩

/-- A small concrete enrichment state used to instantiate theorems. -/
def w10State : WState :=
  { projectName := "Acme", industry := "", designStyle := "", brandColors := [],
    additionalContext := [], inferred := [], userOverrides := [], fieldMappings := [],
    fieldVisuals := [], tone := Option.none, logs := [] }

/-- C10: every confidence value stored into the inferred-field store by
the enrichment merge lies in `[0.0, 1.0]`: `_coerce_confidence` clamps
numeric input into `[0, 1]` and maps a missing or non-numeric confidence
to `0.0` instead of raising, a non-structured payload is stored with
default confidence `0.5`, and every entry of the merged store is either
an untouched pre-existing entry or a record whose confidence lies in
`[0, 1]`. -/
theorem c10_merge_confidence_in_unit_interval :
    (∀ v : PyVal, 0 ≤ coerceConfidence v ∧ coerceConfidence v ≤ 1) ∧
    (∀ v : PyVal, toFloatQ v = Option.none → coerceConfidence v = 0) ∧
    (∀ (value : PyVal) (src rat : Option String),
        payloadConf (.recP value Option.none src rat) = 0) ∧
    (∀ v : PyVal, payloadConf (.raw v) = 1/2) ∧
    (∀ (or : EnrichOracles) (st : WState) (items : List (String × Payload))
        (f : String) (e : Stored),
        findVal f (mergeInferredValues or st items).inferred = some e →
        findVal f st.inferred = some e ∨
        ∃ r : InferredField, e = Stored.dict r ∧ 0 ≤ r.confidence ∧ r.confidence ≤ 1) := by
  refine ⟨fun v => ⟨coerceConfidence_nonneg v, coerceConfidence_le_one v⟩,
          fun v hv => by simp [coerceConfidence, hv],
          fun value src rat => by
            norm_num [payloadConf, coerceConfidence, toFloatQ, PyVal.num],
          fun v => rfl,
          fun or st items f e h => ?_⟩
  exact mergeFold_inferred_entry or _ items (st, ⟨0, 0, 0, 0, 0⟩) f e h

/-- Witness for C10 at concrete inputs: a non-numeric confidence coerces
to `0`, and a freshly merged record for a previously absent field is
stored with its (in-range) confidence. -/
theorem c10_merge_confidence_in_unit_interval_witness :
    (toFloatQ (PyVal.str "abc") = Option.none ∧
     coerceConfidence (PyVal.str "abc") = 0) ∧
    (findVal "industry"
        (mergeInferredValues noOracles w10State
          [("industry",
            Payload.recP (PyVal.num 42) (some (PyVal.num 1)) Option.none
              Option.none)]).inferred =
      some (Stored.dict ⟨PyVal.num 42, 1, "llm", ""⟩) ∧
     (findVal "industry" w10State.inferred =
        some (Stored.dict ⟨PyVal.num 42, 1, "llm", ""⟩) ∨
      ∃ r : InferredField, Stored.dict ⟨PyVal.num 42, 1, "llm", ""⟩ =
        Stored.dict r ∧ 0 ≤ r.confidence ∧ r.confidence ≤ 1)) :=
  ⟨⟨rfl, c10_merge_confidence_in_unit_interval.2.1 (PyVal.str "abc") rfl⟩,
   ⟨by decide,
    c10_merge_confidence_in_unit_interval.2.2.2.2 noOracles w10State
      [("industry",
        Payload.recP (PyVal.num 42) (some (PyVal.num 1)) Option.none Option.none)]
      "industry" (Stored.dict ⟨PyVal.num 42, 1, "llm", ""⟩) (by decide)⟩⟩

theorem coerceConfidence_num (q : ℚ) :
    coerceConfidence (PyVal.num q) = if q < 0 then 0 else if 1 < q then 1 else q := rfl

theorem le_of_gt_coerce {q c : ℚ} (h : coerceConfidence (PyVal.num q) < c)
    (hle : c ≤ 1) : q ≤ c := by
  rw [coerceConfidence_num] at h
  split_ifs at h with h0 h1
  · linarith
  · linarith
  · linarith

theorem mergeField_reject (or : EnrichOracles) (ctx : String) (st : WState)
    (c : Counters) (f : String) (p : Payload) (old : InferredField)
    (hf : findVal f st.inferred = some (Stored.dict old))
    (hle : payloadConf p ≤ coerceConfidence (PyVal.num old.confidence)) :
    mergeField or ctx (st, c) (f, p) = (st, { c with kept := c.kept + 1 }) := by
  unfold mergeField
  dsimp only
  rw [hf]
  rw [if_neg]
  rintro (h | h)
  · exact Option.noConfusion h
  · exact absurd h (not_lt.mpr hle)

theorem mergeField_accept_stores (or : EnrichOracles) (ctx : String) (st : WState)
    (c : Counters) (f : String) (p : Payload)
    (hacc : findVal f st.inferred = Option.none ∨
            oldConfOf (findVal f st.inferred) < payloadConf p) :
    findVal f ((mergeField or ctx (st, c) (f, p)).1).inferred =
      some (Stored.dict ⟨payloadValue p, payloadConf p, payloadSource p,
        payloadRationale p⟩) := by
  unfold mergeField
  dsimp only
  rw [if_pos hacc]
  split
  · rw [mapVisualStep_inferred, findVal_updAssoc_self]
  · rw [activeUpdate_inferred, mapVisualStep_inferred, findVal_updAssoc_self]

theorem mergeField_mono (or : EnrichOracles) (ctx : String) (sc : WState × Counters)
    (gp : String × Payload) (f : String) (old : InferredField)
    (hf : findVal f sc.1.inferred = some (Stored.dict old)) :
    ∃ new : InferredField,
      findVal f ((mergeField or ctx sc gp).1).inferred = some (Stored.dict new) ∧
      old.confidence ≤ new.confidence := by
  obtain ⟨st, c⟩ := sc
  obtain ⟨g, p⟩ := gp
  by_cases hg : f = g
  · subst hg
    by_cases hacc : findVal f st.inferred = Option.none ∨
        oldConfOf (findVal f st.inferred) < payloadConf p
    · refine ⟨⟨payloadValue p, payloadConf p, payloadSource p, payloadRationale p⟩,
        mergeField_accept_stores or ctx st c f p hacc, ?_⟩
      rcases hacc with h | h
      · rw [hf] at h
        exact Option.noConfusion h
      · rw [hf] at h
        exact le_of_gt_coerce h (payloadConf_le_one p)
    · push_neg at hacc
      rw [mergeField_reject or ctx st c f p old hf (hacc.2.trans_eq (by rw [hf]; rfl))]
      exact ⟨old, hf, le_refl _⟩
  · by_cases hacc : findVal g st.inferred = Option.none ∨
        oldConfOf (findVal g st.inferred) < payloadConf p
    · refine ⟨old, ?_, le_refl _⟩
      unfold mergeField
      dsimp only
      rw [if_pos hacc]
      split
      · rw [mapVisualStep_inferred, findVal_updAssoc_ne hg]
        exact hf
      · rw [activeUpdate_inferred, mapVisualStep_inferred, findVal_updAssoc_ne hg]
        exact hf
    · refine ⟨old, ?_, le_refl _⟩
      unfold mergeField
      dsimp only
      rw [if_neg hacc]
      exact hf

theorem mergeFold_mono (or : EnrichOracles) (ctx : String)
    (items : List (String × Payload)) :
    ∀ (sc : WState × Counters) (f : String) (old : InferredField),
      findVal f sc.1.inferred = some (Stored.dict old) →
      ∃ new : InferredField,
        findVal f ((items.foldl (mergeField or ctx) sc).1).inferred =
          some (Stored.dict new) ∧ old.confidence ≤ new.confidence := by
  induction items with
  | nil => intro sc f old hf; exact ⟨old, hf, le_refl _⟩
  | cons hd tl ih =>
      intro sc f old hf
      obtain ⟨mid, hmid, hle⟩ := mergeField_mono or ctx sc hd f old hf
      obtain ⟨new, hnew, hle'⟩ := ih (mergeField or ctx sc hd) f mid hmid
      exact ⟨new, hnew, hle.trans hle'⟩

theorem mainMergeStep_mono (src : String) (m : ProjectMetaM) (gi : String × MainItem)
    (f : String) (old : InferredField) (hf : findVal f m.inferred = some old) :
    ∃ new : InferredField,
      findVal f ((mergeInferredFieldsMain m [gi] src).inferred) = some new ∧
      old.confidence ≤ new.confidence := by
  obtain ⟨g, it⟩ := gi
  unfold mergeInferredFieldsMain
  dsimp only [List.foldl]
  by_cases hov : g ∈ m.userOverrides
  · rw [if_pos hov]
    exact ⟨old, hf, le_refl _⟩
  · rw [if_neg hov]
    by_cases hg : f = g
    · subst hg
      rw [hf]
      dsimp only
      by_cases hle : it.confidence ≤ old.confidence
      · rw [if_pos hle]
        exact ⟨old, hf, le_refl _⟩
      · rw [if_neg hle]
        push_neg at hle
        exact ⟨⟨it.value, it.confidence, src, it.rationale⟩,
          by dsimp only; rw [findVal_updAssoc_self], le_of_lt hle⟩
    · cases hfg : findVal g m.inferred with
      | none =>
          dsimp only
          rw [findVal_updAssoc_ne hg]
          exact ⟨old, hf, le_refl _⟩
      | some ex =>
          dsimp only
          by_cases hle : it.confidence ≤ ex.confidence
          · rw [if_pos hle]
            exact ⟨old, hf, le_refl _⟩
          · rw [if_neg hle]
            dsimp only
            rw [findVal_updAssoc_ne hg]
            exact ⟨old, hf, le_refl _⟩

theorem mainMergeFold_mono (src : String) (items : List (String × MainItem)) :
    ∀ (m : ProjectMetaM) (f : String) (old : InferredField),
      findVal f m.inferred = some old →
      ∃ new : InferredField,
        findVal f (mergeInferredFieldsMain m items src).inferred = some new ∧
        old.confidence ≤ new.confidence := by
  induction items with
  | nil => intro m f old hf; exact ⟨old, hf, le_refl _⟩
  | cons hd tl ih =>
      intro m f old hf
      obtain ⟨mid, hmid, hle⟩ := mainMergeStep_mono src m hd f old hf
      obtain ⟨new, hnew, hle'⟩ := ih (mergeInferredFieldsMain m [hd] src) f mid hmid
      refine ⟨new, ?_, hle.trans hle'⟩
      have : mergeInferredFieldsMain m (hd :: tl) src =
          mergeInferredFieldsMain (mergeInferredFieldsMain m [hd] src) tl src := rfl
      rw [this]
      exact hnew

/-- C2: on the inference path a new inference is accepted only when its
confidence is strictly greater than the stored one (an absent field is
below any real value); equal or lower confidence is discarded without
storing and preserves the earlier record; therefore the stored
confidence never decreases across any sequence of merges.  Stated for
both `_merge_inferred_values` (enrichment service) and
`_merge_inferred_fields` (`main.py`). -/
theorem c2_strictly_greater_confidence_upgrade :
    (∀ (or : EnrichOracles) (ctx : String) (st : WState) (c : Counters)
        (f : String) (p : Payload) (old : InferredField),
        findVal f st.inferred = some (Stored.dict old) →
        payloadConf p ≤ coerceConfidence (PyVal.num old.confidence) →
        mergeField or ctx (st, c) (f, p) = (st, { c with kept := c.kept + 1 })) ∧
    (∀ (or : EnrichOracles) (ctx : String) (st : WState) (c : Counters)
        (f : String) (p : Payload),
        (findVal f st.inferred = Option.none ∨
         oldConfOf (findVal f st.inferred) < payloadConf p) →
        findVal f ((mergeField or ctx (st, c) (f, p)).1).inferred =
          some (Stored.dict ⟨payloadValue p, payloadConf p, payloadSource p,
            payloadRationale p⟩)) ∧
    (∀ (or : EnrichOracles) (st : WState) (items : List (String × Payload))
        (f : String) (old : InferredField),
        findVal f st.inferred = some (Stored.dict old) →
        ∃ new : InferredField,
          findVal f (mergeInferredValues or st items).inferred =
            some (Stored.dict new) ∧ old.confidence ≤ new.confidence) ∧
    (∀ (meta : ProjectMetaM) (f : String) (it : MainItem) (src : String)
        (old : InferredField),
        findVal f meta.inferred = some old → f ∉ meta.userOverrides →
        findVal f (mergeInferredFieldsMain meta [(f, it)] src).inferred =
          some (if it.confidence ≤ old.confidence then old
                else ⟨it.value, it.confidence, src, it.rationale⟩)) ∧
    (∀ (meta : ProjectMetaM) (items : List (String × MainItem)) (src : String)
        (f : String) (old : InferredField),
        findVal f meta.inferred = some old →
        ∃ new : InferredField,
          findVal f (mergeInferredFieldsMain meta items src).inferred = some new ∧
          old.confidence ≤ new.confidence) := by
  refine ⟨mergeField_reject, mergeField_accept_stores, ?_, ?_, ?_⟩
  · intro or st items f old hf
    exact mergeFold_mono or _ items (st, ⟨0, 0, 0, 0, 0⟩) f old hf
  · intro meta f it src old hf hov
    unfold mergeInferredFieldsMain
    dsimp only [List.foldl]
    rw [if_neg hov, hf]
    dsimp only
    by_cases hle : it.confidence ≤ old.confidence
    · rw [if_pos hle, if_pos hle]
      exact hf
    · rw [if_neg hle, if_neg hle]
      dsimp only
      rw [findVal_updAssoc_self]
  · intro meta items src f old hf
    exact mainMergeFold_mono src items meta f old hf

/-- A concrete enrichment state with one stored inferred record, used to
instantiate theorems. -/
def w2State : WState :=
  { w10State with
    inferred := [("industry", Stored.dict ⟨PyVal.str "Tech", 0, "llm", "first"⟩)] }

/-- A concrete `main.py` project meta with one stored inferred record. -/
def m2Meta : ProjectMetaM :=
  { inferred := [("industry", ⟨PyVal.str "Tech", 0, "llm", "first"⟩)]
    userOverrides := [] }

/-- Witness for C2 at concrete inputs: a tie is rejected without
storing (counter aside, the state is untouched), a strictly greater
confidence is stored, and the stored confidence does not decrease. -/
theorem c2_strictly_greater_confidence_upgrade_witness :
    (mergeField noOracles "c" (w2State, ⟨0, 0, 0, 0, 0⟩)
        ("industry", Payload.recP (PyVal.num 9) (some (PyVal.num 0)) Option.none
          Option.none) =
      (w2State, ⟨0, 0, 1, 0, 0⟩)) ∧
    (findVal "industry"
        ((mergeField noOracles "c" (w2State, ⟨0, 0, 0, 0, 0⟩)
          ("industry", Payload.recP (PyVal.num 9) (some (PyVal.num 1)) Option.none
            Option.none)).1).inferred =
      some (Stored.dict ⟨PyVal.num 9, 1, "llm", ""⟩)) ∧
    (∃ new : InferredField,
      findVal "industry"
        (mergeInferredValues noOracles w2State
          [("industry", Payload.recP (PyVal.num 9) (some (PyVal.num 1)) Option.none
            Option.none)]).inferred = some (Stored.dict new) ∧
      (0:ℚ) ≤ new.confidence) ∧
    (findVal "industry"
        (mergeInferredFieldsMain m2Meta
          [("industry", ⟨PyVal.num 9, 0, "dup"⟩)] "llm").inferred =
      some (if (0:ℚ) ≤ 0 then (⟨PyVal.str "Tech", 0, "llm", "first"⟩ : InferredField)
            else ⟨PyVal.num 9, 0, "llm", "dup"⟩)) :=
  ⟨c2_strictly_greater_confidence_upgrade.1 noOracles "c" w2State ⟨0, 0, 0, 0, 0⟩
     "industry" _ ⟨PyVal.str "Tech", 0, "llm", "first"⟩ (by decide) (by decide),
   c2_strictly_greater_confidence_upgrade.2.1 noOracles "c" w2State ⟨0, 0, 0, 0, 0⟩
     "industry" _ (Or.inr (by decide)),
   c2_strictly_greater_confidence_upgrade.2.2.1 noOracles w2State _ "industry"
     ⟨PyVal.str "Tech", 0, "llm", "first"⟩ (by decide),
   c2_strictly_greater_confidence_upgrade.2.2.2.1 m2Meta "industry"
     ⟨PyVal.num 9, 0, "dup"⟩ "llm" ⟨PyVal.str "Tech", 0, "llm", "first"⟩
     (by decide) (by decide)⟩

/-- The active-state cell that `_merge_inferred_values` would update for
a given field name: `state.industry`, `state.design_style`,
`state.brand_colors`, `additional_context["draft_pages"]`, or
`project_meta["tone"]`; `Option.none` for names with no active cell. -/
def activeCell (f : String) (st : WState) : Option PyVal :=
  if f = "industry" then some (PyVal.str st.industry)
  else if f = "design_style" then some (PyVal.str st.designStyle)
  else if f = "brand_colors" then some (.list (st.brandColors.map PyAtom.str))
  else if f = "draft_pages" then findVal "draft_pages" st.additionalContext
  else if f = "tone" then st.tone.map PyVal.str
  else Option.none

theorem activeUpdate_industry (g : String) (v : PyVal) (st : WState)
    (h : g ≠ "industry") : (activeUpdate g v st).industry = st.industry := by
  unfold activeUpdate
  repeat' split
  all_goals (try rfl)
  all_goals simp_all

theorem activeUpdate_designStyle (g : String) (v : PyVal) (st : WState)
    (h : g ≠ "design_style") : (activeUpdate g v st).designStyle = st.designStyle := by
  unfold activeUpdate
  repeat' split
  all_goals (try rfl)
  all_goals simp_all

theorem activeUpdate_brandColors (g : String) (v : PyVal) (st : WState)
    (h : g ≠ "brand_colors") : (activeUpdate g v st).brandColors = st.brandColors := by
  unfold activeUpdate
  repeat' split
  all_goals (try rfl)
  all_goals simp_all

theorem activeUpdate_additionalContext (g : String) (v : PyVal) (st : WState)
    (h : g ≠ "draft_pages") :
    (activeUpdate g v st).additionalContext = st.additionalContext := by
  unfold activeUpdate
  repeat' split
  all_goals (try rfl)
  all_goals simp_all

theorem activeUpdate_tone (g : String) (v : PyVal) (st : WState)
    (h : g ≠ "tone") : (activeUpdate g v st).tone = st.tone := by
  unfold activeUpdate
  repeat' split
  all_goals (try rfl)
  all_goals simp_all

theorem activeCell_activeUpdate_ne (f g : String) (h : f ≠ g) (v : PyVal)
    (st : WState) : activeCell f (activeUpdate g v st) = activeCell f st := by
  by_cases h1 : f = "industry"
  · subst h1
    simp [activeCell, activeUpdate_industry g v st (fun hg => h (hg ▸ rfl))]
  · by_cases h2 : f = "design_style"
    · subst h2
      simp [activeCell, activeUpdate_designStyle g v st (fun hg => h (hg ▸ rfl))]
    · by_cases h3 : f = "brand_colors"
      · subst h3
        simp [activeCell, activeUpdate_brandColors g v st (fun hg => h (hg ▸ rfl))]
      · by_cases h4 : f = "draft_pages"
        · subst h4
          simp [activeCell,
            activeUpdate_additionalContext g v st (fun hg => h (hg ▸ rfl))]
        · by_cases h5 : f = "tone"
          · subst h5
            simp [activeCell, activeUpdate_tone g v st (fun hg => h (hg ▸ rfl))]
          · simp [activeCell, h1, h2, h3, h4, h5]

theorem activeCell_mapVisualStep (or : EnrichOracles) (ctx g f : String) (v : PyVal)
    (st : WState) (c : Counters) :
    activeCell f ((mapVisualStep or ctx g v st c).1) = activeCell f st := by
  obtain ⟨fm, fv, h⟩ := mapVisualStep_shape or ctx g v st c
  rw [h]
  rfl

theorem mapVisualStep_userOverrides (or : EnrichOracles) (ctx g : String) (v : PyVal)
    (st : WState) (c : Counters) :
    ((mapVisualStep or ctx g v st c).1).userOverrides = st.userOverrides := by
  obtain ⟨fm, fv, h⟩ := mapVisualStep_shape or ctx g v st c
  rw [h]

theorem activeUpdate_userOverrides (g : String) (v : PyVal) (st : WState) :
    (activeUpdate g v st).userOverrides = st.userOverrides := by
  obtain ⟨a, b, c, d, e, h⟩ := activeUpdate_shape g v st
  rw [h]

theorem mergeField_userOverrides (or : EnrichOracles) (ctx : String)
    (sc : WState × Counters) (gp : String × Payload) :
    ((mergeField or ctx sc gp).1).userOverrides = sc.1.userOverrides := by
  unfold mergeField
  dsimp only
  split
  · split
    · rw [mapVisualStep_userOverrides]
    · rw [activeUpdate_userOverrides, mapVisualStep_userOverrides]
  · rfl

theorem mergeField_activeCell (or : EnrichOracles) (ctx : String)
    (sc : WState × Counters) (gp : String × Payload) (f : String)
    (hov : f ∈ sc.1.userOverrides) :
    activeCell f ((mergeField or ctx sc gp).1) = activeCell f sc.1 := by
  unfold mergeField
  dsimp only
  split
  · split
    case isTrue hmem =>
      rw [activeCell_mapVisualStep]
      rfl
    case isFalse hmem =>
      have hne : f ≠ gp.1 := by
        intro he
        subst he
        rw [mapVisualStep_userOverrides] at hmem
        exact hmem hov
      rw [activeCell_activeUpdate_ne f gp.1 hne, activeCell_mapVisualStep]
      rfl
  · rfl

theorem mergeFold_activeCell (or : EnrichOracles) (ctx : String)
    (items : List (String × Payload)) :
    ∀ (sc : WState × Counters) (f : String), f ∈ sc.1.userOverrides →
      activeCell f ((items.foldl (mergeField or ctx) sc).1) = activeCell f sc.1 ∧
      ((items.foldl (mergeField or ctx) sc).1).userOverrides = sc.1.userOverrides := by
  induction items with
  | nil => intro sc f hov; exact ⟨rfl, rfl⟩
  | cons hd tl ih =>
      intro sc f hov
      have hov' : f ∈ ((mergeField or ctx sc hd).1).userOverrides := by
        rw [mergeField_userOverrides]; exact hov
      obtain ⟨h1, h2⟩ := ih (mergeField or ctx sc hd) f hov'
      exact ⟨h1.trans (mergeField_activeCell or ctx sc hd f hov),
             h2.trans (mergeField_userOverrides or ctx sc hd)⟩

theorem mainMerge_override_skip (src : String) (items : List (String × MainItem)) :
    ∀ (meta : ProjectMetaM) (f : String), f ∈ meta.userOverrides →
      findVal f (mergeInferredFieldsMain meta items src).inferred =
        findVal f meta.inferred ∧
      (mergeInferredFieldsMain meta items src).userOverrides = meta.userOverrides := by
  induction items with
  | nil => intro meta f hov; exact ⟨rfl, rfl⟩
  | cons hd tl ih =>
      intro meta f hov
      obtain ⟨g, it⟩ := hd
      have hstep : ∀ m : ProjectMetaM, f ∈ m.userOverrides →
          findVal f ((mergeInferredFieldsMain m [(g, it)] src).inferred) =
            findVal f m.inferred ∧
          (mergeInferredFieldsMain m [(g, it)] src).userOverrides =
            m.userOverrides := by
        intro m hm
        unfold mergeInferredFieldsMain
        dsimp only [List.foldl]
        by_cases hgv : g ∈ m.userOverrides
        · rw [if_pos hgv]
          exact ⟨rfl, rfl⟩
        · rw [if_neg hgv]
          have hne : f ≠ g := fun he => hgv (he ▸ hm)
          cases hfg : findVal g m.inferred with
          | none =>
              dsimp only
              exact ⟨findVal_updAssoc_ne hne _ _, rfl⟩
          | some ex =>
              dsimp only
              by_cases hle : it.confidence ≤ ex.confidence
              · rw [if_pos hle]
                exact ⟨rfl, rfl⟩
              · rw [if_neg hle]
                exact ⟨findVal_updAssoc_ne hne _ _, rfl⟩
      have hinner := hstep meta hov
      have hrec := ih (mergeInferredFieldsMain meta [(g, it)] src) f
        (by rw [hinner.2]; exact hov)
      have heq : mergeInferredFieldsMain meta ((g, it) :: tl) src =
          mergeInferredFieldsMain (mergeInferredFieldsMain meta [(g, it)] src) tl src :=
        rfl
      rw [heq]
      exact ⟨hrec.1.trans hinner.1, hrec.2.trans hinner.2⟩

/-- A concrete enrichment state with a user override on `industry` and
an existing low-confidence inferred record for it. -/
def w1State : WState :=
  { w10State with
    inferred := [("industry", Stored.dict ⟨PyVal.str "Legal", 0, "llm", "old"⟩)]
    userOverrides := ["industry"] }

/-- C1 counterexample: in `_merge_inferred_values` a user override does
not reject the merge — it only protects the active field.  For the
user-overridden field `industry`, a higher-confidence inference is still
written into `project_meta["inferred"]`, replacing the stored value,
confidence, source and rationale, so the stored state for the field is
not left unchanged as the claim asserts. -/
theorem c1_user_override_merge_counterexample :
    "industry" ∈ w1State.userOverrides ∧
    findVal "industry" w1State.inferred =
      some (Stored.dict ⟨PyVal.str "Legal", 0, "llm", "old"⟩) ∧
    findVal "industry"
        (mergeInferredValues noOracles w1State
          [("industry",
            Payload.recP (PyVal.num 9) (some (PyVal.num 1)) Option.none
              Option.none)]).inferred =
      some (Stored.dict ⟨PyVal.num 9, 1, "llm", ""⟩) :=
  ⟨by decide, by decide, by decide⟩

/-- C1 (amended): for every field with a user override, `main.py`'s
`_merge_inferred_fields` rejects the merge entirely (the stored inferred
entry and the overrides are unchanged), while `_merge_inferred_values`
(enrichment service) never changes the field's active cell — its active
value is unchanged, though its stored inferred record may still be
upgraded (see the counterexample). -/
theorem c1_user_override_protection :
    (∀ (meta : ProjectMetaM) (items : List (String × MainItem)) (src : String)
        (f : String), f ∈ meta.userOverrides →
        findVal f (mergeInferredFieldsMain meta items src).inferred =
          findVal f meta.inferred ∧
        (mergeInferredFieldsMain meta items src).userOverrides =
          meta.userOverrides) ∧
    (∀ (or : EnrichOracles) (st : WState) (items : List (String × Payload))
        (f : String), f ∈ st.userOverrides →
        activeCell f (mergeInferredValues or st items) = activeCell f st) := by
  constructor
  · intro meta items src f hov
    exact mainMerge_override_skip src items meta f hov
  · intro or st items f hov
    have h := mergeFold_activeCell or
      ("Business: " ++ st.projectName ++ ", Industry: " ++ st.industry) items
      (st, ⟨0, 0, 0, 0, 0⟩) f hov
    calc activeCell f (mergeInferredValues or st items)
        = activeCell f ((items.foldl (mergeField or
            ("Business: " ++ st.projectName ++ ", Industry: " ++ st.industry))
            (st, ⟨0, 0, 0, 0, 0⟩)).1) := rfl
      _ = activeCell f st := h.1

/-- A concrete `main.py` project meta with a user override on
`industry`. -/
def m1Meta : ProjectMetaM :=
  { inferred := [("industry", ⟨PyVal.str "Legal", 0, "llm", "old"⟩)]
    userOverrides := ["industry"] }

/-- Witness for C1 (amended) at concrete inputs: `main.py`'s merge
leaves a user-overridden field's stored entry untouched, and the
enrichment merge leaves its active cell untouched. -/
theorem c1_user_override_protection_witness :
    ("industry" ∈ m1Meta.userOverrides ∧
     findVal "industry"
        (mergeInferredFieldsMain m1Meta
          [("industry", ⟨PyVal.num 9, 1, "high"⟩)] "llm").inferred =
      findVal "industry" m1Meta.inferred) ∧
    ("industry" ∈ w1State.userOverrides ∧
     activeCell "industry"
        (mergeInferredValues noOracles w1State
          [("industry",
            Payload.recP (PyVal.num 9) (some (PyVal.num 1)) Option.none
              Option.none)]) = activeCell "industry" w1State) :=
  ⟨⟨by decide,
    (c1_user_override_protection.1 m1Meta
      [("industry", ⟨PyVal.num 9, 1, "high"⟩)] "llm" "industry" (by decide)).1⟩,
   ⟨by decide,
    c1_user_override_protection.2 noOracles w1State
      [("industry",
        Payload.recP (PyVal.num 9) (some (PyVal.num 1)) Option.none Option.none)]
      "industry" (by decide)⟩⟩

/-- A field-updater state whose `project_name` was set by the user
(user provenance: the attribute is set and not listed in
`inferred_fields`). -/
def fu3State : FUState := ⟨[("project_name", PyVal.str "Acme")], []⟩

/-- C3 counterexample: the simplified assumption path does not protect
user-provenance fields.  `project_name` was user-provided (present and
not in `inferred_fields`), yet a router update for `name` listed in
`assumptions` overwrites the active value and re-marks the field as
inferred. -/
theorem c3_assumption_overwrites_user_counterexample :
    "project_name" ∉ fu3State.inferredFields ∧
    findVal "project_name" fu3State.attrs = some (PyVal.str "Acme") ∧
    (updateStateFromRouterUpdates fu3State
        [("name", PyVal.str "Inferred Co")] ["name"]).attrs =
      [("project_name", PyVal.str "Inferred Co")] ∧
    (updateStateFromRouterUpdates fu3State
        [("name", PyVal.str "Inferred Co")] ["name"]).inferredFields =
      ["project_name"] :=
  ⟨by decide, by decide, by decide, by decide⟩

/-- C3 (amended): for every state and every update whose key is listed
in `assumptions` (directly or through the alias map) with a non-`None`
value targeting an existing `WebsiteState` attribute, the assumption
path applies the update with source `inferred`: it unconditionally
overwrites the attribute's active value (regardless of any prior user
provenance) and adds the target to `inferred_fields`.  The
user-protection invariant of the full merge does not hold on this
path. -/
theorem c3_assumption_path_behavior :
    ∀ (st : FUState) (key : String) (v : PyVal) (assumptions : List String)
      (target : String),
      target = (fieldMapLookup (pyLower key)).getD key →
      target ∈ websiteStateAttrs →
      v ≠ PyVal.noneV →
      (key ∈ assumptions ∨ target ∈ assumptions) →
      (updateStateFromRouterUpdates st [(key, v)] assumptions).attrs =
        updAssoc target (brandColorsWrap target v) st.attrs ∧
      target ∈ (updateStateFromRouterUpdates st [(key, v)] assumptions).inferredFields := by
  intro st key v assumptions target htarget hattr hv hassum
  unfold updateStateFromRouterUpdates
  dsimp only [List.foldl]
  rw [if_neg hv]
  have hsrc : (if key ∈ assumptions ∨ ((fieldMapLookup (pyLower key)).getD key) ∈ assumptions
      then UpdSource.inferred else UpdSource.user) = UpdSource.inferred := by
    rw [if_pos]
    rcases hassum with h | h
    · exact Or.inl h
    · exact Or.inr (htarget ▸ h)
  rw [hsrc]
  unfold updateStateField
  dsimp only
  rw [← htarget]
  rw [if_neg (not_not_intro hattr)]
  constructor
  · rfl
  · dsimp only
    by_cases hmem : target ∈ st.inferredFields
    · rw [if_pos hmem]
      exact hmem
    · rw [if_neg hmem]
      exact List.mem_append_right _ (List.mem_singleton.mpr rfl)

/-- Witness for C3 (amended) at concrete inputs. -/
theorem c3_assumption_path_behavior_witness :
    ("project_name" = (fieldMapLookup (pyLower "name")).getD "name" ∧
     "project_name" ∈ websiteStateAttrs ∧
     PyVal.str "Inferred Co" ≠ PyVal.noneV ∧
     ("name" ∈ ["name"] ∨ "project_name" ∈ ["name"])) ∧
    (updateStateFromRouterUpdates fu3State
        [("name", PyVal.str "Inferred Co")] ["name"]).attrs =
      updAssoc "project_name" (brandColorsWrap "project_name" (PyVal.str "Inferred Co"))
        fu3State.attrs ∧
    "project_name" ∈ (updateStateFromRouterUpdates fu3State
        [("name", PyVal.str "Inferred Co")] ["name"]).inferredFields :=
  ⟨⟨by decide, by decide, by decide, by decide⟩,
   (c3_assumption_path_behavior fu3State "name" (PyVal.str "Inferred Co") ["name"]
      "project_name" (by decide) (by decide) (by decide) (by decide)).1,
   (c3_assumption_path_behavior fu3State "name" (PyVal.str "Inferred Co") ["name"]
      "project_name" (by decide) (by decide) (by decide) (by decide)).2⟩

/-- The catalog's nominal-order successor of a phase: the next entry of
`_phase_order` after the given one. -/
def nominalSuccessor (phase : String) : Option String :=
  getNextInFlow coreRegistry phase

/-- `resolveNext` as claim C6 words it: a non-PROCEED action returns the
explicit target unchanged; PROCEED consults the hard jump table
(`intake → research`, `research → strategy`, `planning → seo`)
regardless of the explicit target; otherwise the explicit target when
provided, else the catalog's nominal-order successor. -/
def resolveNextSpec (currentPhase action : String)
    (explicitTarget : Option String) : Option String :=
  if action ≠ "PROCEED" then explicitTarget
  else if currentPhase = "intake" then some "research"
  else if currentPhase = "research" then some "strategy"
  else if currentPhase = "planning" then some "seo"
  else
    match explicitTarget with
    | some t => some t
    | Option.none => nominalSuccessor currentPhase

theorem natural_eq_flow (cur : String) :
    getNaturalNextStep coreRegistry cur = getNextInFlow coreRegistry cur := by
  by_cases h1 : cur = "intake"
  · subst h1; decide
  by_cases h2 : cur = "research"
  · subst h2; decide
  by_cases h3 : cur = "strategy"
  · subst h3; decide
  by_cases h4 : cur = "ux"
  · subst h4; decide
  by_cases h5 : cur = "planning"
  · subst h5; decide
  by_cases h6 : cur = "seo"
  · subst h6; decide
  by_cases h7 : cur = "copywriting"
  · subst h7; decide
  by_cases h8 : cur = "prd"
  · subst h8; decide
  by_cases h9 : cur = "building"
  · subst h9; decide
  have hget : coreRegistry.get cur = Option.none := by
    simp [coreRegistry, h1, h2, h3, h4, h5, h6, h7, h8, h9]
  simp [getNaturalNextStep, hget]

/-- C6: `get_next_step` implements exactly the transition function the
spec describes — non-PROCEED actions pass the explicit target through,
PROCEED follows the hard jump table (`intake → research`,
`research → strategy`, `planning → seo`) regardless of the explicit
target, and otherwise falls back to the explicit target, else the
catalog's nominal-order successor — and it is pure and deterministic
(two calls with the same inputs give the same output). -/
theorem c6_get_next_step_matches_spec :
    (∀ (cur action : String) (tgt : Option String),
        getNextStep cur action (some coreRegistry) tgt =
          resolveNextSpec cur action tgt) ∧
    (∀ (cur action : String) (reg : Option SkillRegistry) (tgt : Option String),
        getNextStep cur action reg tgt = getNextStep cur action reg tgt) := by
  refine ⟨?_, fun cur action reg tgt => rfl⟩
  intro cur action tgt
  unfold getNextStep resolveNextSpec
  by_cases ha : action ≠ "PROCEED"
  · rw [if_pos ha, if_pos ha]
  · rw [if_neg ha, if_neg ha]
    by_cases h1 : cur = "intake"
    · rw [if_pos h1, if_pos h1]
    · rw [if_neg h1, if_neg h1]
      by_cases h2 : cur = "research"
      · rw [if_pos h2, if_pos h2]
      · rw [if_neg h2, if_neg h2]
        by_cases h3 : cur = "planning"
        · rw [if_pos h3, if_pos h3]
        · rw [if_neg h3, if_neg h3]
          cases tgt with
          | some t => rfl
          | none =>
              show getNaturalNextStep coreRegistry cur = nominalSuccessor cur
              exact natural_eq_flow cur

/-- C7: dispatching PROCEED from `intake` while required fields are
missing is refused — no skill executes, `current_step` is unchanged, and
a refusal entry is appended to the log; for every step other than
`intake` the proceed predicate is always satisfied. -/
theorem c7_proceed_refused_while_missing_info :
    (∀ (fuel : ℕ) (r : SkillRegistry) (beh : Behavior) (st : SessState)
        (d : IntentDecision) (userMessage : String),
        st.currentStep = "intake" → st.missingInfo ≠ [] → d.action = "PROCEED" →
        executeIntent fuel r beh st d userMessage =
          ⟨[], { st with logs := st.logs ++
             ["System: Cannot proceed - still missing required information."] },
           [], Option.none⟩) ∧
    (∀ (step : String) (st : SessState), step ≠ "intake" →
        canProceedFromStep step st = true) := by
  constructor
  · intro fuel r beh st d msg hstep hmiss hact
    unfold executeIntent
    dsimp only
    rw [if_neg (by rintro ⟨h, _⟩; rw [hact] at h; exact absurd h (by decide))]
    rw [if_neg (by intro h; rw [hact] at h; exact absurd h (by decide))]
    rw [if_pos hact]
    rw [if_pos]
    rw [hstep]
    unfold canProceedFromStep
    rw [if_pos rfl]
    simp only [List.isEmpty_iff]
    exact hmiss
  · intro step st h
    unfold canProceedFromStep
    rw [if_neg h]

/-- A concrete session at `intake` with two required fields missing. -/
def sess7 : SessState :=
  { currentStep := "intake", logs := [], missingInfo := ["audience", "offer"],
    agentReasoning := [], additionalContext := [], projectBrief := "",
    uxStrategy := Option.none, sitemap := [], seoData := Option.none,
    copywriting := Option.none, prdDocument := "", generatedCode := "" }

/-- A trivial skill behavior: no output, no state change, no error. -/
def idBeh : Behavior := fun _ _ s => ([], s, Option.none)

/-- A PROCEED decision with no explicit target. -/
def d7 : IntentDecision := ⟨"PROCEED", "none", Option.none, Option.none, "", 1⟩

/-- Witness for C7 at concrete inputs. -/
theorem c7_proceed_refused_while_missing_info_witness :
    (sess7.currentStep = "intake" ∧ sess7.missingInfo ≠ [] ∧
     d7.action = "PROCEED" ∧
     executeIntent 3 coreRegistry idBeh sess7 d7 "go" =
       ⟨[], { sess7 with logs := sess7.logs ++
          ["System: Cannot proceed - still missing required information."] },
        [], Option.none⟩) ∧
    ("research" ≠ "intake" ∧ canProceedFromStep "research" sess7 = true) :=
  ⟨⟨rfl, by decide, rfl,
    c7_proceed_refused_while_missing_info.1 3 coreRegistry idBeh sess7 d7 "go"
      rfl (by decide) rfl⟩,
   ⟨by decide,
    c7_proceed_refused_while_missing_info.2 "research" sess7 (by decide)⟩⟩


theorem chain_unknown_eq (n : ℕ) (r : SkillRegistry) (beh : Behavior)
    (st : SessState) (start : String) (hr : r.get start = Option.none) :
    executeSkillChain (n + 1) r beh st start = ⟨[], st, [], Option.none⟩ := by
  conv_lhs => rw [executeSkillChain.eq_def]
  dsimp only
  rw [hr]

theorem chain_gate_eq (n : ℕ) (r : SkillRegistry) (beh : Behavior)
    (st : SessState) (start : String) (sk : Skill) (hr : r.get start = some sk)
    (hap : sk.requiresApproval = true) :
    executeSkillChain (n + 1) r beh st start =
      ⟨(executeSkill r beh st start Option.none).1 ++ [gateMarker sk],
       (executeSkill r beh st start Option.none).2, [start], some start⟩ := by
  conv_lhs => rw [executeSkillChain.eq_def]
  dsimp only
  rw [hr]
  dsimp only
  rw [if_pos hap]

theorem chain_cont_eq (n : ℕ) (r : SkillRegistry) (beh : Behavior)
    (st : SessState) (start : String) (sk : Skill) (nid : String) (nsk : Skill)
    (hr : r.get start = some sk) (hap : sk.requiresApproval = false)
    (hsn : sk.suggestedNext = some nid) (hn : r.get nid = some nsk)
    (hauto : nsk.autoExecute = true) :
    executeSkillChain (n + 1) r beh st start =
      ⟨(executeSkill r beh st start Option.none).1 ++
         (executeSkillChain n r beh (executeSkill r beh st start Option.none).2
           nid).frags,
       (executeSkillChain n r beh (executeSkill r beh st start Option.none).2
         nid).st,
       start :: (executeSkillChain n r beh
         (executeSkill r beh st start Option.none).2 nid).trace,
       (executeSkillChain n r beh (executeSkill r beh st start Option.none).2
         nid).gateHalt⟩ := by
  conv_lhs => rw [executeSkillChain.eq_def]
  dsimp only
  rw [hr]
  dsimp only
  rw [if_neg (by rw [hap]; exact Bool.false_ne_true), hsn]
  dsimp only
  rw [hn]
  dsimp only
  rw [if_pos hauto]

theorem chain_stop_noNext_eq (n : ℕ) (r : SkillRegistry) (beh : Behavior)
    (st : SessState) (start : String) (sk : Skill) (hr : r.get start = some sk)
    (hap : sk.requiresApproval = false) (hsn : sk.suggestedNext = Option.none) :
    executeSkillChain (n + 1) r beh st start =
      ⟨(executeSkill r beh st start Option.none).1,
       (executeSkill r beh st start Option.none).2, [start], Option.none⟩ := by
  conv_lhs => rw [executeSkillChain.eq_def]
  dsimp only
  rw [hr]
  dsimp only
  rw [if_neg (by rw [hap]; exact Bool.false_ne_true), hsn]

theorem chain_stop_unknownNext_eq (n : ℕ) (r : SkillRegistry) (beh : Behavior)
    (st : SessState) (start : String) (sk : Skill) (nid : String)
    (hr : r.get start = some sk) (hap : sk.requiresApproval = false)
    (hsn : sk.suggestedNext = some nid) (hn : r.get nid = Option.none) :
    executeSkillChain (n + 1) r beh st start =
      ⟨(executeSkill r beh st start Option.none).1,
       (executeSkill r beh st start Option.none).2, [start], Option.none⟩ := by
  conv_lhs => rw [executeSkillChain.eq_def]
  dsimp only
  rw [hr]
  dsimp only
  rw [if_neg (by rw [hap]; exact Bool.false_ne_true), hsn]
  dsimp only
  rw [hn]

theorem chain_stop_notAuto_eq (n : ℕ) (r : SkillRegistry) (beh : Behavior)
    (st : SessState) (start : String) (sk : Skill) (nid : String) (nsk : Skill)
    (hr : r.get start = some sk) (hap : sk.requiresApproval = false)
    (hsn : sk.suggestedNext = some nid) (hn : r.get nid = some nsk)
    (hauto : nsk.autoExecute = false) :
    executeSkillChain (n + 1) r beh st start =
      ⟨(executeSkill r beh st start Option.none).1,
       (executeSkill r beh st start Option.none).2, [start], Option.none⟩ := by
  conv_lhs => rw [executeSkillChain.eq_def]
  dsimp only
  rw [hr]
  dsimp only
  rw [if_neg (by rw [hap]; exact Bool.false_ne_true), hsn]
  dsimp only
  rw [hn]
  dsimp only
  rw [if_neg (by rw [hauto]; exact Bool.false_ne_true)]

theorem getLast?_ne_nil {α : Type} {l : List α} {x : α} (h : l.getLast? = some x) :
    l ≠ [] := by
  intro hnil
  rw [hnil] at h
  exact Option.noConfusion h

/-- C5: a chain that reaches a skill S with `requires_approval = true`
halts immediately after S executes, regardless of S's `suggested_next`:
S is the last executed skill of the chain invocation, the output stream
ends with the checkpoint marker naming S's gate, and the chain records
the halt at S. -/
theorem c5_gate_halts_chain :
    ∀ (fuel : ℕ) (r : SkillRegistry) (beh : Behavior) (st : SessState)
      (start S : String) (sk : Skill),
      S ∈ (executeSkillChain fuel r beh st start).trace →
      r.get S = some sk → sk.requiresApproval = true →
      (executeSkillChain fuel r beh st start).trace.getLast? = some S ∧
      (executeSkillChain fuel r beh st start).frags.getLast? =
        some (gateMarker sk) ∧
      (executeSkillChain fuel r beh st start).gateHalt = some S := by
  intro fuel
  induction fuel with
  | zero =>
      intro r beh st start S sk hmem hS hap
      exact absurd hmem (by simp [executeSkillChain])
  | succ n ih =>
      intro r beh st start S sk hmem hS hap
      cases hr : r.get start with
      | none =>
          rw [chain_unknown_eq n r beh st start hr] at hmem
          exact absurd hmem (List.not_mem_nil S)
      | some sk0 =>
          by_cases hap0 : sk0.requiresApproval = true
          · rw [chain_gate_eq n r beh st start sk0 hr hap0] at hmem ⊢
            dsimp only at hmem ⊢
            rw [List.mem_singleton] at hmem
            subst hmem
            rw [hr] at hS
            injection hS with hS'
            subst hS'
            exact ⟨rfl, List.getLast?_concat _, rfl⟩
          · have hap0' : sk0.requiresApproval = false := by
              exact Bool.not_eq_true _ ▸ (Bool.eq_false_iff.mpr hap0)
            have hne : S ≠ start := by
              intro he
              subst he
              rw [hr] at hS
              injection hS with hS'
              subst hS'
              exact hap0 hap
            cases hsn : sk0.suggestedNext with
            | none =>
                rw [chain_stop_noNext_eq n r beh st start sk0 hr hap0' hsn] at hmem
                dsimp only at hmem
                rw [List.mem_singleton] at hmem
                exact absurd hmem hne
            | some nid =>
                cases hn : r.get nid with
                | none =>
                    rw [chain_stop_unknownNext_eq n r beh st start sk0 nid hr hap0'
                      hsn hn] at hmem
                    dsimp only at hmem
                    rw [List.mem_singleton] at hmem
                    exact absurd hmem hne
                | some nsk =>
                    by_cases hauto : nsk.autoExecute = true
                    · rw [chain_cont_eq n r beh st start sk0 nid nsk hr hap0' hsn hn
                        hauto] at hmem ⊢
                      dsimp only at hmem ⊢
                      rcases List.mem_cons.mp hmem with he | hrest
                      · exact absurd he hne
                      · obtain ⟨h1, h2, h3⟩ := ih r beh
                          (executeSkill r beh st start Option.none).2 nid S sk hrest
                          hS hap
                        refine ⟨?_, ?_, h3⟩
                        · show ([start] ++ (executeSkillChain n r beh
                            (executeSkill r beh st start Option.none).2
                              nid).trace).getLast? = some S
                          rw [List.getLast?_append_of_ne_nil [start]
                            (getLast?_ne_nil h1)]
                          exact h1
                        · rw [List.getLast?_append_of_ne_nil _
                            (getLast?_ne_nil h2)]
                          exact h2
                    · have hauto' : nsk.autoExecute = false :=
                        Bool.eq_false_iff.mpr hauto
                      rw [chain_stop_notAuto_eq n r beh st start sk0 nid nsk hr hap0'
                        hsn hn hauto'] at hmem
                      dsimp only at hmem
                      rw [List.mem_singleton] at hmem
                      exact absurd hmem hne

/-- Witness for C5 at a concrete input: the chain invoked at the
`planning` gate executes it, halts, and ends with the BLUEPRINT
checkpoint marker. -/
theorem c5_gate_halts_chain_witness :
    ("planning" ∈ (executeSkillChain 5 coreRegistry idBeh sess7 "planning").trace ∧
     coreRegistry.get "planning" = some planningSkill ∧
     planningSkill.requiresApproval = true) ∧
    (executeSkillChain 5 coreRegistry idBeh sess7 "planning").trace.getLast? =
      some "planning" ∧
    (executeSkillChain 5 coreRegistry idBeh sess7 "planning").frags.getLast? =
      some (gateMarker planningSkill) ∧
    (executeSkillChain 5 coreRegistry idBeh sess7 "planning").gateHalt =
      some "planning" :=
  ⟨⟨by decide, by decide, by decide⟩,
   c5_gate_halts_chain 5 coreRegistry idBeh sess7 "planning" "planning"
     planningSkill (by decide) (by decide) (by decide)⟩

theorem chainTrace_shape (fuel : ℕ) (r : SkillRegistry) (beh : Behavior)
    (st : SessState) (start : String) :
    (executeSkillChain fuel r beh st start).trace = [] ∨
    ∃ t, (executeSkillChain fuel r beh st start).trace = start :: t := by
  cases fuel with
  | zero => exact Or.inl rfl
  | succ n =>
      cases hr : r.get start with
      | none =>
          rw [chain_unknown_eq n r beh st start hr]
          exact Or.inl rfl
      | some sk0 =>
          by_cases hap0 : sk0.requiresApproval = true
          · rw [chain_gate_eq n r beh st start sk0 hr hap0]
            exact Or.inr ⟨[], rfl⟩
          · have hap0' : sk0.requiresApproval = false := Bool.eq_false_iff.mpr hap0
            cases hsn : sk0.suggestedNext with
            | none =>
                rw [chain_stop_noNext_eq n r beh st start sk0 hr hap0' hsn]
                exact Or.inr ⟨[], rfl⟩
            | some nid =>
                cases hn : r.get nid with
                | none =>
                    rw [chain_stop_unknownNext_eq n r beh st start sk0 nid hr hap0'
                      hsn hn]
                    exact Or.inr ⟨[], rfl⟩
                | some nsk =>
                    by_cases hauto : nsk.autoExecute = true
                    · rw [chain_cont_eq n r beh st start sk0 nid nsk hr hap0' hsn hn
                        hauto]
                      exact Or.inr ⟨_, rfl⟩
                    · rw [chain_stop_notAuto_eq n r beh st start sk0 nid nsk hr hap0'
                        hsn hn (Bool.eq_false_iff.mpr hauto)]
                      exact Or.inr ⟨[], rfl⟩

/-- C8: a chain never enters a successor as an automatic continuation
unless that successor has `auto_execute = true` — every executed skill
after the first has `auto_execute = true` — and a checkpoint marker is
emitted only when the halting skill is a gate (so a soft stop before a
non-auto-execute successor emits none). -/
theorem c8_chain_soft_stops_before_non_auto :
    ∀ (fuel : ℕ) (r : SkillRegistry) (beh : Behavior) (st : SessState)
      (start : String),
      (∀ (i : ℕ) (sid : String),
        (executeSkillChain fuel r beh st start).trace.get? (i + 1) = some sid →
        ∃ sk : Skill, r.get sid = some sk ∧ sk.autoExecute = true) ∧
      (∀ g : String,
        (executeSkillChain fuel r beh st start).gateHalt = some g →
        ∃ sk : Skill, r.get g = some sk ∧ sk.requiresApproval = true) := by
  intro fuel
  induction fuel with
  | zero =>
      intro r beh st start
      constructor
      · intro i sid hget
        exact absurd hget (by simp [executeSkillChain])
      · intro g hg
        exact absurd hg (by simp [executeSkillChain])
  | succ n ih =>
      intro r beh st start
      cases hr : r.get start with
      | none =>
          rw [chain_unknown_eq n r beh st start hr]
          constructor
          · intro i sid hget
            exact absurd hget (by simp)
          · intro g hg
            exact absurd hg (by simp)
      | some sk0 =>
          by_cases hap0 : sk0.requiresApproval = true
          · rw [chain_gate_eq n r beh st start sk0 hr hap0]
            constructor
            · intro i sid hget
              exact absurd hget (by simp)
            · intro g hg
              dsimp only at hg
              injection hg with hg'
              subst hg'
              exact ⟨sk0, hr, hap0⟩
          · have hap0' : sk0.requiresApproval = false := Bool.eq_false_iff.mpr hap0
            cases hsn : sk0.suggestedNext with
            | none =>
                rw [chain_stop_noNext_eq n r beh st start sk0 hr hap0' hsn]
                constructor
                · intro i sid hget
                  exact absurd hget (by simp)
                · intro g hg
                  exact absurd hg (by simp)
            | some nid =>
                cases hn : r.get nid with
                | none =>
                    rw [chain_stop_unknownNext_eq n r beh st start sk0 nid hr hap0'
                      hsn hn]
                    constructor
                    · intro i sid hget
                      exact absurd hget (by simp)
                    · intro g hg
                      exact absurd hg (by simp)
                | some nsk =>
                    by_cases hauto : nsk.autoExecute = true
                    · rw [chain_cont_eq n r beh st start sk0 nid nsk hr hap0' hsn hn
                        hauto]
                      constructor
                      · intro i sid hget
                        dsimp only at hget
                        rw [List.get?_cons_succ] at hget
                        cases i with
                        | zero =>
                            rcases chainTrace_shape n r beh
                              (executeSkill r beh st start Option.none).2 nid with
                              hsh | ⟨t, hsh⟩
                            · rw [hsh] at hget
                              exact absurd hget (by simp)
                            · rw [hsh] at hget
                              rw [List.get?_cons_zero] at hget
                              injection hget with hget'
                              subst hget'
                              exact ⟨nsk, hn, hauto⟩
                        | succ j =>
                            exact (ih r beh
                              (executeSkill r beh st start Option.none).2 nid).1 j
                              sid hget
                      · intro g hg
                        dsimp only at hg
                        exact (ih r beh
                          (executeSkill r beh st start Option.none).2 nid).2 g hg
                    · rw [chain_stop_notAuto_eq n r beh st start sk0 nid nsk hr hap0'
                        hsn hn (Bool.eq_false_iff.mpr hauto)]
                      constructor
                      · intro i sid hget
                        exact absurd hget (by simp)
                      · intro g hg
                        exact absurd hg (by simp)

/-- Witness for C8 at a concrete input: a chain started at `prd`
continues into `building` (which has `auto_execute = true`) and, having
stopped with no gate executed, emits no checkpoint marker
(`gateHalt = Option.none`, so the second component is applied to a chain
that did halt at a gate: the one from `planning`). -/
theorem c8_chain_soft_stops_before_non_auto_witness :
    ((executeSkillChain 5 coreRegistry idBeh sess7 "prd").trace.get? 1 =
       some "building" ∧
     ∃ sk : Skill, coreRegistry.get "building" = some sk ∧
       sk.autoExecute = true) ∧
    ((executeSkillChain 5 coreRegistry idBeh sess7 "planning").gateHalt =
       some "planning" ∧
     ∃ sk : Skill, coreRegistry.get "planning" = some sk ∧
       sk.requiresApproval = true) :=
  ⟨⟨by decide,
    (c8_chain_soft_stops_before_non_auto 5 coreRegistry idBeh sess7 "prd").1 0
      "building" (by decide)⟩,
   ⟨by decide,
    (c8_chain_soft_stops_before_non_auto 5 coreRegistry idBeh sess7 "planning").2
      "planning" (by decide)⟩⟩

/-- A behavior whose `research` agent raises (`boom`) and whose other
agents return normally with no output or state change. -/
def boomBeh : Behavior := fun id _ s =>
  if id = "research" then ([], s, some "boom") else ([], s, Option.none)

/-- C4 counterexample: `execute_skill` catches a skill exception and
yields an inline error fragment but does not re-raise, so
`execute_skill_chain` continues past the failed skill.  With the
`research` agent raising, the chain started at `research` still
continues into `strategy` (its auto-execute successor), and the error
is recorded in the log. -/
theorem c4_error_reraise_counterexample :
    (boomBeh "research" Option.none sess7).2.2 = some "boom" ∧
    (executeSkillChain 5 coreRegistry boomBeh sess7 "research").trace =
      ["research", "strategy"] ∧
    "Error: Skill execution error (research): boom" ∈
      (executeSkillChain 5 coreRegistry boomBeh sess7 "research").st.logs :=
  ⟨by decide, by decide, by decide⟩

/-- C4 (amended): an exception raised while executing a skill is caught
by `execute_skill`, recorded in the log, and reported to the caller as
an inline error fragment, with the state mutations made before the
failure retained — but it is not re-raised: the chain treats the failed
skill as completed, so it still applies the normal continuation rules
and can continue into an auto-execute successor. -/
theorem c4_skill_error_caught_not_reraised :
    (∀ (r : SkillRegistry) (beh : Behavior) (st : SessState) (id : String)
        (sk : Skill) (chunks : List String) (st2 : SessState) (e : String),
        r.get id = some sk →
        beh id Option.none
          { st with
            currentStep := id
            logs := st.logs ++ ["System: Executing " ++ sk.name ++ " skill."] } =
          (chunks, st2, some e) →
        executeSkill r beh st id Option.none =
          ((sk.icon ++ " **" ++ sk.name ++ "**\n\n") ::
             (chunks ++ ["\n[Error during " ++ sk.name ++ ": " ++ e ++ "]"]),
           { st2 with logs := st2.logs ++
              ["Error: Skill execution error (" ++ sk.id ++ "): " ++ e] })) ∧
    (∀ (n : ℕ) (r : SkillRegistry) (beh : Behavior) (st : SessState)
        (id nid : String) (sk nsk : Skill) (e : String),
        r.get id = some sk → sk.requiresApproval = false →
        sk.suggestedNext = some nid → r.get nid = some nsk →
        nsk.autoExecute = true →
        (beh id Option.none
          { st with
            currentStep := id
            logs := st.logs ++
              ["System: Executing " ++ sk.name ++ " skill."] }).2.2 =
          some e →
        (executeSkillChain (n + 1) r beh st id).trace =
          id :: (executeSkillChain n r beh
            (executeSkill r beh st id Option.none).2 nid).trace) := by
  constructor
  · intro r beh st id sk chunks st2 e hr hbeh
    unfold executeSkill
    rw [hr]
    dsimp only
    rw [hbeh]
  · intro n r beh st id nid sk nsk e hr hap hsn hn hauto hbeh
    rw [chain_cont_eq n r beh st id sk nid nsk hr hap hsn hn hauto]

/-- The state `execute_skill` hands the `research` agent when invoked on
`sess7`. -/
def sess4a : SessState :=
  { sess7 with
    currentStep := "research"
    logs := sess7.logs ++
      ["System: Executing " ++ researchSkill.name ++ " skill."] }

/-- Witness for C4 (amended) at concrete inputs. -/
theorem c4_skill_error_caught_not_reraised_witness :
    (coreRegistry.get "research" = some researchSkill ∧
     boomBeh "research" Option.none sess4a = ([], sess4a, some "boom") ∧
     executeSkill coreRegistry boomBeh sess7 "research" Option.none =
       ((researchSkill.icon ++ " **" ++ researchSkill.name ++ "**\n\n") ::
          ([] ++ ["\n[Error during " ++ researchSkill.name ++ ": " ++ "boom"
            ++ "]"]),
        { sess4a with logs := sess4a.logs ++
           ["Error: Skill execution error (" ++ researchSkill.id ++ "): "
             ++ "boom"] })) ∧
    (executeSkillChain 5 coreRegistry boomBeh sess7 "research").trace =
      "research" :: (executeSkillChain 4 coreRegistry boomBeh
        (executeSkill coreRegistry boomBeh sess7 "research" Option.none).2
        "strategy").trace :=
  ⟨⟨by decide, by decide,
    c4_skill_error_caught_not_reraised.1 coreRegistry boomBeh sess7 "research"
      researchSkill [] sess4a "boom" (by decide) rfl⟩,
   c4_skill_error_caught_not_reraised.2 4 coreRegistry boomBeh sess7 "research"
     "strategy" researchSkill strategySkill "boom" (by decide) (by decide)
     (by decide) (by decide) (by decide) rfl⟩

/-- An INVOKE decision requesting the `research` skill. -/
def d9 : IntentDecision :=
  ⟨"INVOKE", "research", Option.none, Option.none, "go research", 1⟩

/-- C9 counterexample: the INVOKE dispatch runs only the requested
skill.  `research` is not a gate and its `suggested_next` (`strategy`)
has `auto_execute = true`, so the chain-continuation rule of the chain
executor would advance into `strategy` — but `execute_intent`'s INVOKE
branch performs no continuation: the trace is exactly
`["research"]`. -/
theorem c9_invoke_no_continuation_counterexample :
    researchSkill.requiresApproval = false ∧
    researchSkill.suggestedNext = some "strategy" ∧
    (coreRegistry.get "strategy").map Skill.autoExecute = some true ∧
    (executeIntent 5 coreRegistry idBeh sess7 d9 "msg").trace = ["research"] :=
  ⟨by decide, by decide, by decide, by decide⟩

theorem executeSkill_logs_ext (r : SkillRegistry) (beh : Behavior) (st : SessState)
    (id : String) (fb : Option String)
    (hlog : ∀ (i : String) (f : Option String) (s : SessState),
      ∃ ext, ((beh i f s).2.1).logs = s.logs ++ ext) :
    ∃ ext, (executeSkill r beh st id fb).2.logs = st.logs ++ ext := by
  unfold executeSkill
  cases hr : r.get id with
  | none => exact ⟨[], (List.append_nil _).symm⟩
  | some sk =>
      dsimp only
      obtain ⟨ext, hext⟩ := hlog id fb
        { st with
          currentStep := id
          logs := st.logs ++ ["System: Executing " ++ sk.name ++ " skill."] }
      rcases hbeh : beh id fb
        { st with
          currentStep := id
          logs := st.logs ++ ["System: Executing " ++ sk.name ++ " skill."] } with
        ⟨chunks, st2, err⟩
      rw [hbeh] at hext
      dsimp only at hext
      cases err with
      | none =>
          refine ⟨["System: Executing " ++ sk.name ++ " skill."] ++ ext ++
            ["System: " ++ sk.name ++ " completed successfully."], ?_⟩
          dsimp only
          rw [hext]
          simp [List.append_assoc]
      | some e =>
          refine ⟨["System: Executing " ++ sk.name ++ " skill."] ++ ext ++
            ["Error: Skill execution error (" ++ sk.id ++ "): " ++ e], ?_⟩
          dsimp only
          rw [hext]
          simp [List.append_assoc]

/-- C9 (amended): an INVOKE decision whose requested skill exists and
has `can_invoke_directly = true` runs exactly that one skill (with the
revision feedback as input) — no chain continuation into
`suggested_next` happens, even when the successor has
`auto_execute = true`; a checkpoint marker is emitted exactly when the
skill itself is a gate; and missing prerequisites produce only a
non-blocking warning log entry while the skill still executes
(assuming, as §6 specifies, that skill behaviors only append to the
log). -/
theorem c9_invoke_runs_single_skill :
    ∀ (fuel : ℕ) (r : SkillRegistry) (beh : Behavior) (st : SessState)
      (d : IntentDecision) (msg : String) (sk : Skill),
      d.action = "INVOKE" → d.requestedSkill ≠ "none" →
      r.get d.requestedSkill = some sk → sk.canInvokeDirectly = true →
      (∀ (i : String) (f : Option String) (s : SessState),
        ∃ ext, ((beh i f s).2.1).logs = s.logs ++ ext) →
      (executeIntent fuel r beh st d msg).trace = [d.requestedSkill] ∧
      (executeIntent fuel r beh st d msg).gateHalt =
        (if sk.requiresApproval then some d.requestedSkill else Option.none) ∧
      (checkPrerequisites r d.requestedSkill st ≠ [] →
        ("Note: Invoking " ++ sk.name ++ " without completing: " ++
         String.intercalate ", "
           ((checkPrerequisites r d.requestedSkill st).filterMap
             (fun p => (r.get p).map Skill.name))) ∈
        (executeIntent fuel r beh st d msg).st.logs) := by
  intro fuel r beh st d msg sk hact hreq hr hinv hlog
  unfold executeIntent
  dsimp only
  rw [if_pos (show d.action = "INVOKE" ∧ d.requestedSkill ≠ "none" from ⟨hact, hreq⟩)]
  rw [hr]
  dsimp only
  rw [if_pos hinv]
  refine ⟨rfl, rfl, ?_⟩
  intro hmiss
  have hfalse : (checkPrerequisites r d.requestedSkill st).isEmpty = false :=
    Bool.eq_false_iff.mpr (fun h => hmiss (List.isEmpty_iff.mp h))
  dsimp only
  rw [if_neg (by rw [hfalse]; exact Bool.false_ne_true)]
  obtain ⟨ext, hext⟩ := executeSkill_logs_ext r beh
    { st with logs := st.logs ++
        ["Note: Invoking " ++ sk.name ++ " without completing: " ++
         String.intercalate ", "
           ((checkPrerequisites r d.requestedSkill st).filterMap
             (fun p => (r.get p).map Skill.name))] }
    d.requestedSkill
    (some (match d.revisionFeedback with
      | some s => if s = "" then msg else s
      | Option.none => msg)) hlog
  show _ ∈ (executeSkill r beh _ d.requestedSkill _).2.logs
  rw [hext]
  dsimp only
  rw [List.append_assoc]
  exact List.mem_append_right _ (List.mem_append_left _ (List.mem_singleton.mpr rfl))

/-- Witness for C9 (amended) at concrete inputs: invoking `research`
with its `intake` prerequisite unmet runs just that skill, emits no
gate marker, and logs the non-blocking warning. -/
theorem c9_invoke_runs_single_skill_witness :
    (d9.action = "INVOKE" ∧ d9.requestedSkill ≠ "none" ∧
     coreRegistry.get "research" = some researchSkill ∧
     researchSkill.canInvokeDirectly = true ∧
     checkPrerequisites coreRegistry "research" sess7 ≠ []) ∧
    (executeIntent 5 coreRegistry idBeh sess7 d9 "msg").trace = ["research"] ∧
    (executeIntent 5 coreRegistry idBeh sess7 d9 "msg").gateHalt =
      (if researchSkill.requiresApproval then some "research" else Option.none) ∧
    ("Note: Invoking " ++ researchSkill.name ++ " without completing: " ++
     String.intercalate ", "
       ((checkPrerequisites coreRegistry "research" sess7).filterMap
         (fun p => (coreRegistry.get p).map Skill.name))) ∈
      (executeIntent 5 coreRegistry idBeh sess7 d9 "msg").st.logs :=
  have h := c9_invoke_runs_single_skill 5 coreRegistry idBeh sess7 d9 "msg"
    researchSkill rfl (by decide) (by decide) (by decide)
    (fun i f s => ⟨[], (List.append_nil s.logs).symm⟩)
  ⟨⟨rfl, by decide, by decide, by decide, by decide⟩, h.1, h.2.1, h.2.2 (by decide)⟩
